import Mathlib

/-!
# Mosaic: frame geometry and blending

A shallow embedding of `core/src/frame.cpp` and `core/src/blend.cpp`.

Conventions of the embedding:
* `float` / `double` values are rationals (`ℚ`); every arithmetic step is exact.
* a conversion `float → int` is truncation toward zero (`truncInt`).
* a call that makes OpenCV raise `cv::Exception`, or an index past the end of a vector,
  returns `Except.error`.
* `TARGET_WIDTH`, `TARGET_HEIGHT` (macros of the absent header) are parameters.
* library functions whose result is not fixed by the source (`cvtColor`, `meanStdDev`,
  `convexHull`, `std::sort`) and the helpers of the absent headers (`getDistance`, the
  distance of a `BlendPoint`) are parameters of the functions that call them.
-/

namespace m2d

/-! ## Geometry primitives -/

/-- A `cv::Point2f`. -/
structure Point2f where
  x : ℚ
  y : ℚ
deriving DecidableEq

/-- A `cv::Rect2f`. -/
structure Rect2f where
  x : ℚ
  y : ℚ
  width : ℚ
  height : ℚ
deriving DecidableEq

/-- A 3x3 matrix of doubles (`cv::Mat`, `CV_64F`), row by row. -/
structure Mat3 where
  m00 : ℚ
  m01 : ℚ
  m02 : ℚ
  m10 : ℚ
  m11 : ℚ
  m12 : ℚ
  m20 : ℚ
  m21 : ℚ
  m22 : ℚ
deriving DecidableEq

/-- The matrix `Mat::eye(3, 3, CV_64F)`. -/
def Mat3.eye : Mat3 := ⟨1, 0, 0, 0, 1, 0, 0, 0, 1⟩

/-- Matrix product `a * b` (rows of `a` against columns of `b`). -/
def Mat3.mul (a b : Mat3) : Mat3 :=
  ⟨a.m00 * b.m00 + a.m01 * b.m10 + a.m02 * b.m20,
   a.m00 * b.m01 + a.m01 * b.m11 + a.m02 * b.m21,
   a.m00 * b.m02 + a.m01 * b.m12 + a.m02 * b.m22,
   a.m10 * b.m00 + a.m11 * b.m10 + a.m12 * b.m20,
   a.m10 * b.m01 + a.m11 * b.m11 + a.m12 * b.m21,
   a.m10 * b.m02 + a.m11 * b.m12 + a.m12 * b.m22,
   a.m20 * b.m00 + a.m21 * b.m10 + a.m22 * b.m20,
   a.m20 * b.m01 + a.m21 * b.m11 + a.m22 * b.m21,
   a.m20 * b.m02 + a.m21 * b.m12 + a.m22 * b.m22⟩

instance : Mul Mat3 := ⟨Mat3.mul⟩

/-- Reference modes indexing `bound_points`. -/
inductive Ref where
  | PERSPECTIVE
  | EUCLIDEAN
deriving DecidableEq

/-- The constant `FLT_EPSILON`, `2^-23`. -/
def FLT_EPSILON : ℚ := 1 / 8388608

/-- One point through `cv::perspectiveTransform`: the homogeneous image of `(x, y, 1)`,
divided by its third coordinate `w`, or `(0, 0)` unless `fabs(w) > FLT_EPSILON`. -/
def transformPoint (m : Mat3) (p : Point2f) : Point2f :=
  let w := m.m20 * p.x + m.m21 * p.y + m.m22
  if |w| > FLT_EPSILON then
    ⟨(m.m00 * p.x + m.m01 * p.y + m.m02) / w, (m.m10 * p.x + m.m11 * p.y + m.m12) / w⟩
  else ⟨0, 0⟩

/-- The function `cv::perspectiveTransform` on a vector of points. -/
def perspectiveTransform (pts : List Point2f) (m : Mat3) : List Point2f :=
  pts.map (transformPoint m)

/-! ## Frame -/

/-- The state of a `Frame`: its geometric members, the size `cols x rows` of its colour
image, and the pixel data of `color` (8-bit BGR) and `gray`, black unless given. -/
structure Frame where
  H : Mat3
  E : Mat3
  bound_rect : Rect2f
  bound_points : Ref → List Point2f
  grid_prev : List Point2f
  grid_next : List Point2f
  neighbors : List Nat
  cols : Int
  rows : Int
  color : Int → Int → Nat × Nat × Nat := fun _ _ => (0, 0, 0)
  gray : Int → Int → Nat := fun _ _ => 0

/-- Constructor `Frame::Frame(_img, _pre, _width, _height)`: the image is resized to
`_width x _height`; the centre uses the integer division of C++ (`Int.tdiv`). -/
def Frame.new (_width _height : Int) : Frame :=
  let pts : List Point2f :=
    [⟨0, 0⟩, ⟨_width, 0⟩, ⟨_width, _height⟩, ⟨0, _height⟩,
     ⟨((Int.tdiv _width 2 : Int) : ℚ), ((Int.tdiv _height 2 : Int) : ℚ)⟩]
  { H := Mat3.eye
    E := Mat3.eye
    bound_rect := ⟨0, 0, _width, _height⟩
    bound_points := fun _ => pts
    grid_prev := []
    grid_next := []
    neighbors := []
    cols := _width
    rows := _height }

/-- Scan state of `updateBoundRect`: `top`, `bottom`, `left`, `right`. -/
structure Extrema where
  top : ℚ
  bottom : ℚ
  left : ℚ
  right : ℚ
deriving DecidableEq

/-- One iteration of the loop of `updateBoundRect`. -/
def Extrema.step (e : Extrema) (point : Point2f) : Extrema :=
  let left := if point.x < e.left then point.x else e.left
  let top := if point.y < e.top then point.y else e.top
  let right := if point.x > e.right then point.x else e.right
  let bottom := if point.y > e.bottom then point.y else e.bottom
  ⟨top, bottom, left, right⟩

/-- The method `Frame::updateBoundRect`: the scan starts from `top = TARGET_HEIGHT`,
`bottom = 0`, `left = TARGET_WIDTH`, `right = 0` and visits every perspective bound point. -/
def Frame.updateBoundRect (TARGET_WIDTH TARGET_HEIGHT : ℚ) (f : Frame) : Frame :=
  let e := (f.bound_points Ref.PERSPECTIVE).foldl Extrema.step
    ⟨TARGET_HEIGHT, 0, TARGET_WIDTH, 0⟩
  { f with bound_rect := ⟨e.left, e.top, e.right - e.left, e.bottom - e.top⟩ }

/-- The method `Frame::setHReference(_H, _ref)`. -/
def Frame.setHReference (TARGET_WIDTH TARGET_HEIGHT : ℚ) (f : Frame) (_H : Mat3) (_ref : Ref) :
    Frame :=
  let f1 : Frame :=
    { f with bound_points := fun r =>
        if r = _ref then perspectiveTransform (f.bound_points _ref) _H else f.bound_points r }
  if _ref = Ref.PERSPECTIVE then
    let f2 : Frame :=
      { f1 with grid_prev :=
          if f1.grid_prev.length ≠ 0 then perspectiveTransform f1.grid_prev _H else f1.grid_prev }
    let f3 : Frame :=
      { f2 with grid_next :=
          if f2.grid_next.length ≠ 0 then perspectiveTransform f2.grid_next _H else f2.grid_next }
    let f4 := f3.updateBoundRect TARGET_WIDTH TARGET_HEIGHT
    { f4 with H := _H * f4.H }
  else f1

/-- The exact axis-aligned envelope of a non-empty point list: origin at the minimum
coordinates, extent up to the maximum ones. -/
def envelope (pts : List Point2f) : Rect2f :=
  match pts with
  | [] => ⟨0, 0, 0, 0⟩
  | p :: ps =>
    let minx := ps.foldl (fun a q => min a q.x) p.x
    let maxx := ps.foldl (fun a q => max a q.x) p.x
    let miny := ps.foldl (fun a q => min a q.y) p.y
    let maxy := ps.foldl (fun a q => max a q.y) p.y
    ⟨minx, miny, maxx - minx, maxy - miny⟩

/-- Translation by `(tx, ty)` as a homography. -/
def translation (tx ty : ℚ) : Mat3 := ⟨1, 0, tx, 0, 1, ty, 0, 0, 1⟩

/-! ## Blender: working collections and overlap geometry -/

/-- Conversion `float → int`: truncation toward zero. -/
def truncInt (q : ℚ) : Int := Int.tdiv q.num q.den

/-- A `cv::Rect` (integer fields). -/
structure Rect where
  x : Int
  y : Int
  width : Int
  height : Int
deriving DecidableEq

/-- A single-channel 8-bit matrix (`CV_8U`): its size and the value at row `r`, column `c`. -/
structure Mask where
  rows : Int
  cols : Int
  px : Int → Int → Nat

/-- The working collections of a `Blender` during one blend call, over pixel type `α`
for the warped images. -/
structure Blender (α : Type) where
  warp_imgs : List α
  masks : List Mask
  full_masks : List Mask
  bound_rect : List Rect2f

/-- The bound check of the constructor `Mat(const Mat&, const Rect&)`; OpenCV raises
`cv::Exception` when it fails. -/
def roiOK (m : Mask) (roi : Rect) : Bool :=
  decide (0 ≤ roi.x) && decide (0 ≤ roi.width) && decide (roi.x + roi.width ≤ m.cols) &&
  decide (0 ≤ roi.y) && decide (0 ≤ roi.height) && decide (roi.y + roi.height ≤ m.rows)

/-- Membership of the pixel at row `r`, column `c` in a rectangle. -/
def Rect.contains (roi : Rect) (r c : Int) : Bool :=
  decide (roi.x ≤ c) && decide (c < roi.x + roi.width) &&
  decide (roi.y ≤ r) && decide (r < roi.y + roi.height)

/-- The ROI of the intersection inside the object mask, as `getOverlapMasks` computes it. -/
def objRoi (bo bs : Rect2f) : Rect :=
  ⟨truncInt (max (bs.x - bo.x) 0), truncInt (max (bs.y - bo.y) 0),
   truncInt (min (bs.x + bs.width) (bo.x + bo.width) - max bs.x bo.x),
   truncInt (min (bs.y + bs.height) (bo.y + bo.height) - max bs.y bo.y)⟩

/-- The ROI of the intersection inside the scene mask, as `getOverlapMasks` computes it. -/
def scRoi (bo bs : Rect2f) : Rect :=
  ⟨truncInt (max (bo.x - bs.x) 0), truncInt (max (bo.y - bs.y) 0),
   (objRoi bo bs).width, (objRoi bo bs).height⟩

/-- A zero mask of the size of `m` whose ROI `roi` holds `scene_overlap & object_overlap`:
`own` is the ROI of the mask being built, and the pixel at offset `(dr, dc)` of the ROI is the
AND of the scene mask and the object mask at the same offset of their own ROIs. -/
def andInto (m : Mask) (own : Rect) (sc_mask : Mask) (sc_roi : Rect) (obj_mask : Mask)
    (obj_roi : Rect) : Mask :=
  { rows := m.rows
    cols := m.cols
    px := fun r c =>
      if own.contains r c then
        Nat.land (sc_mask.px (r - own.y + sc_roi.y) (c - own.x + sc_roi.x))
          (obj_mask.px (r - own.y + obj_roi.y) (c - own.x + obj_roi.x))
      else 0 }

/-- The method `Blender::getOverlapMasks(_object, _scene)`; the result is
`[overlap_sc_mask, overlap_obj_mask]`. An index outside the working collections has no
defined behaviour and a ROI outside its matrix raises `cv::Exception`: both are errors. -/
def Blender.getOverlapMasks {α : Type} (b : Blender α) (_object _scene : Nat) :
    Except String (List Mask) :=
  match b.full_masks[_object]?, b.full_masks[_scene]?, b.bound_rect[_object]?,
      b.bound_rect[_scene]? with
  | some obj_mask, some sc_mask, some bo, some bs =>
    let obj_roi := objRoi bo bs
    let sc_roi := scRoi bo bs
    if roiOK obj_mask obj_roi = false then .error "cv::Exception: roi outside the object mask"
    else if roiOK sc_mask sc_roi = false then .error "cv::Exception: roi outside the scene mask"
    else
      let overlap_sc_mask := andInto sc_mask sc_roi sc_mask sc_roi obj_mask obj_roi
      let overlap_obj_mask := andInto obj_mask obj_roi sc_mask sc_roi obj_mask obj_roi
      .ok [overlap_sc_mask, overlap_obj_mask]
  | _, _, _, _ => .error "index out of range"

/-- The first ROI of `cropMask`: the overlap inside the object mask. -/
def cropObjRoi (bo bs : Rect2f) : Rect :=
  ⟨truncInt (max bs.x bo.x - bo.x), truncInt (max bs.y bo.y - bo.y),
   truncInt (min (bs.x + bs.width) (bo.x + bo.width) - max bs.x bo.x),
   truncInt (min (bs.y + bs.height) (bo.y + bo.height) - max bs.y bo.y)⟩

/-- The second ROI of `cropMask`: the first one moved to the scene intersection location. -/
def cropScRoi (bo bs : Rect2f) : Rect :=
  ⟨truncInt (max (bo.x - bs.x) 0), truncInt (max (bo.y - bs.y) 0),
   (cropObjRoi bo bs).width, (cropObjRoi bo bs).height⟩

/-- The local scene mask at the end of `cropMask`, after `scene_roi -= object_roi`
(saturating subtraction on 8-bit values). -/
def Blender.cropMaskLocal {α : Type} (b : Blender α) (_object _scene : Nat) :
    Except String Mask :=
  match b.bound_rect[_object]?, b.bound_rect[_scene]?, b.masks[_object]?, b.masks[_scene]? with
  | some bo, some bs, some obj_mask, some sc_mask =>
    let overlap_roi := cropObjRoi bo bs
    if roiOK obj_mask overlap_roi = false then
      .error "cv::Exception: roi outside the object mask"
    else
      let scene_roi := cropScRoi bo bs
      if roiOK sc_mask scene_roi = false then .error "cv::Exception: roi outside the scene mask"
      else
        .ok { rows := sc_mask.rows
              cols := sc_mask.cols
              px := fun r c =>
                if scene_roi.contains r c then
                  sc_mask.px r c -
                    obj_mask.px (r - scene_roi.y + overlap_roi.y) (c - scene_roi.x + overlap_roi.x)
                else sc_mask.px r c }
  | _, _, _, _ => .error "index out of range"

/-- The method `Blender::cropMask(_object, _scene)`: `obj_mask` and `sc_mask` are copies made
by `copyTo`, the subtraction acts on the copy, and no member of the Blender is assigned. -/
def Blender.cropMask {α : Type} (b : Blender α) (_object _scene : Nat) :
    Except String (Blender α) :=
  match b.cropMaskLocal _object _scene with
  | .ok _sc_mask => .ok b
  | .error e => .error e

/-- Width of the intersection of two bounding rects, as a `float`. -/
def interWidth (bo bs : Rect2f) : ℚ :=
  min (bs.x + bs.width) (bo.x + bo.width) - max bs.x bo.x

/-- Height of the intersection of two bounding rects, as a `float`. -/
def interHeight (bo bs : Rect2f) : ℚ :=
  min (bs.y + bs.height) (bo.y + bo.height) - max bs.y bo.y

/-- A mask filled with 255. -/
def fullMask (rows cols : Int) : Mask := ⟨rows, cols, fun _ _ => 255⟩

/-- Two staged frames with the given bounding rects and filled masks of the matching size
(`Mat mask(bound_rect.height, bound_rect.width, ...)`). -/
def stagedPair (r0 r1 : Rect2f) : Blender Unit :=
  { warp_imgs := [(), ()]
    masks := [fullMask (truncInt r0.height) (truncInt r0.width),
              fullMask (truncInt r1.height) (truncInt r1.width)]
    full_masks := [fullMask (truncInt r0.height) (truncInt r0.width),
                   fullMask (truncInt r1.height) (truncInt r1.width)]
    bound_rect := [r0, r1] }

/-- Membership of the global point `(gx, gy)` in a local region translated by the origin of
its frame's bounding rect: the point is `(c + origin.x, r + origin.y)` for a pixel at row `r`,
column `c` of the region. -/
def inGlobal (origin : Rect2f) (roi : Rect) (gx gy : ℚ) : Bool :=
  let c := gx - origin.x
  let r := gy - origin.y
  decide (c.den = 1) && decide (r.den = 1) && roi.contains r.num c.num

/-- Membership of the global point `(gx, gy)` in the axis-aligned intersection of two
bounding rects. -/
def inIntersection (bo bs : Rect2f) (gx gy : ℚ) : Bool :=
  decide (max bo.x bs.x ≤ gx) && decide (gx < min (bo.x + bo.width) (bs.x + bs.width)) &&
  decide (max bo.y bs.y ≤ gy) && decide (gy < min (bo.y + bo.height) (bs.y + bs.height))

/-- A bounding rect with integer coordinates. -/
def Rect2f.ofInt (x y width height : Int) : Rect2f := ⟨x, y, width, height⟩

/-! ## Local stitch selection -/

/-- Squared Euclidean distance between two points. -/
def sqDist (p q : Point2f) : ℚ := (p.x - q.x) * (p.x - q.x) + (p.y - q.y) * (p.y - q.y)

/-- A 640x360 frame carrying the given matched grid points. -/
def gridFrame (prev next : List Point2f) : Frame :=
  { Frame.new 640 360 with grid_prev := prev, grid_next := next }

/-! ## Frame quality gate -/

/-- The accumulation loop of `cv::contourArea`: the sum of `prev.x * p.y - prev.y * p.x`
along the contour, `prev` being the point before `p`. -/
def shoelace (prev : Point2f) : List Point2f → ℚ
  | [] => 0
  | p :: ps => (prev.x * p.y - prev.y * p.x) + shoelace p ps

/-- The function `cv::contourArea` (not oriented): half the absolute value of the shoelace
sum that starts from the last point; `0` for an empty contour. -/
def contourArea (contour : List Point2f) : ℚ :=
  match contour.getLast? with
  | none => 0
  | some last => |shoelace last contour * (1 / 2)|

/-- The ratio `max(a / b, b / a)` between two semi-diagonals. The quotients are those of the
field `ℚ`; they agree with the `float` quotients whenever both semi-diagonals are non-zero. -/
def semiDiagRatio (a b : ℚ) : ℚ := max (a / b) (b / a)

/-- The semi-diagonal `i` of a frame: distance from corner `i` to the centre, the fifth bound
point. `getDistance` is a helper of the absent header. -/
def Frame.semiDiag (getDistance : Point2f → Point2f → ℚ) (f : Frame) (i : Nat) : ℚ :=
  getDistance ((f.bound_points Ref.PERSPECTIVE).getD i ⟨0, 0⟩)
    ((f.bound_points Ref.PERSPECTIVE).getD 4 ⟨0, 0⟩)

/-- The method `Frame::boundAreaKeypoints`: area of the convex hull of `grid_points[PREV]`;
`hull` stands for `cv::convexHull`. -/
def Frame.boundAreaKeypoints (hull : List Point2f → List Point2f) (f : Frame) : ℚ :=
  contourArea (hull f.grid_prev)

/-- The method `Frame::isGoodFrame`. -/
def Frame.isGoodFrame (getDistance : Point2f → Point2f → ℚ) (hull : List Point2f → List Point2f)
    (f : Frame) : Bool :=
  let ratio0 := semiDiagRatio (f.semiDiag getDistance 0) (f.semiDiag getDistance 2)
  let ratio1 := semiDiagRatio (f.semiDiag getDistance 1) (f.semiDiag getDistance 3)
  let area := contourArea (f.bound_points Ref.PERSPECTIVE)
  let keypoints_area := f.boundAreaKeypoints hull
  if area > 3 / 2 * f.cols * f.rows then false
  else if ratio0 > 8 / 5 || ratio1 > 8 / 5 then false
  else if keypoints_area < 1 / 5 * f.cols * f.rows then false
  else true

/-- The four corners of the 640x360 tile. -/
def tileCorners : List Point2f := [⟨0, 0⟩, ⟨640, 0⟩, ⟨640, 360⟩, ⟨0, 360⟩]

/-! ## Images and colour correction -/

/-- Element depth of a matrix. -/
inductive Depth where
  | CV_8U
  | CV_32F
deriving DecidableEq

/-- Three channel values: a pixel, or a `cv::Scalar` of per-channel statistics. -/
structure Vec3 where
  c0 : ℚ
  c1 : ℚ
  c2 : ℚ
deriving DecidableEq

/-- A three-channel matrix: size, depth and the pixel at row `r`, column `c`. -/
structure Image where
  rows : Int
  cols : Int
  depth : Depth
  px : Int → Int → Vec3

/-- The function `cvRound`: rounding to the nearest integer, ties to even. -/
def cvRound (q : ℚ) : Int :=
  if q - ⌊q⌋ < 1 / 2 then ⌊q⌋
  else if 1 / 2 < q - ⌊q⌋ then ⌊q⌋ + 1
  else if ⌊q⌋ % 2 = 0 then ⌊q⌋ else ⌊q⌋ + 1

/-- The function `saturate_cast<uchar>`: rounding, then clamping to `0..255`. -/
def saturate_cast_uchar (q : ℚ) : ℚ := ((max 0 (min 255 (cvRound q)) : Int) : ℚ)

/-- A per-channel function applied to the three channels. -/
def Vec3.map (f : ℚ → ℚ) (v : Vec3) : Vec3 := ⟨f v.c0, f v.c1, f v.c2⟩

/-- A pixelwise conversion producing a matrix of depth `d`. -/
def Image.mapPx (f : Vec3 → Vec3) (d : Depth) (img : Image) : Image :=
  { rows := img.rows, cols := img.cols, depth := d, px := fun r c => f (img.px r c) }

/-- The call `aux_img.convertTo(aux_img, CV_8U)`. -/
def convertTo8U (img : Image) : Image := img.mapPx (Vec3.map saturate_cast_uchar) Depth.CV_8U

/-- The OpenCV collaborators of `correctColor` on 8-bit images: the pixelwise colour
conversions of `cvtColor` (`CV_BGR2Lab`, `CV_Lab2BGR`) and `meanStdDev` under a mask, which
yields the per-channel mean and standard deviation. -/
structure ColorOps where
  bgr2lab : Vec3 → Vec3
  lab2bgr : Vec3 → Vec3
  meanStdDev : Image → Mask → Vec3 × Vec3

/-- The assignment `channels[j] = sc_stdev[j] * (channels[j] - ob_mean[j]) / ob_stdev[j]
+ sc_mean[j]` on one value of an 8-bit channel: the matrix expression is evaluated exactly and
stored with `saturate_cast<uchar>`. The quotient is that of the field `ℚ`; it agrees with the
`double` quotient whenever `ob_stdev` is non-zero. -/
def transferChannel (sc_stdev ob_mean ob_stdev sc_mean c : ℚ) : ℚ :=
  saturate_cast_uchar (sc_stdev * (c - ob_mean) / ob_stdev + sc_mean)

/-- The loop over `j < 3` of `correctColor` on one Lab pixel. -/
def transferPixel (sc_mean sc_stdev ob_mean ob_stdev : Vec3) (v : Vec3) : Vec3 :=
  ⟨transferChannel sc_stdev.c0 ob_mean.c0 ob_stdev.c0 sc_mean.c0 v.c0,
   transferChannel sc_stdev.c1 ob_mean.c1 ob_stdev.c1 sc_mean.c1 v.c1,
   transferChannel sc_stdev.c2 ob_mean.c2 ob_stdev.c2 sc_mean.c2 v.c2⟩

/-- The 8-bit Lab image of a warped image: `convertTo(CV_8U)`, then `cvtColor(CV_BGR2Lab)`. -/
def labOf (ops : ColorOps) (img : Image) : Image :=
  (convertTo8U img).mapPx ops.bgr2lab Depth.CV_8U

/-- What `correctColor` stores back for the scene image of a pair: the Lab image converted
back with `cvtColor(lab_img, warp_imgs[i], CV_Lab2BGR)`. -/
def roundTrip (ops : ColorOps) (wi : Image) : Image :=
  (labOf ops wi).mapPx ops.lab2bgr Depth.CV_8U

/-- What `correctColor` stores for the object image of a pair: its Lab image after the
per-channel transfer, converted back to BGR. `over0` and `over1` are the two overlap masks. -/
def corrected (ops : ColorOps) (over0 over1 : Mask) (wi wj : Image) : Image :=
  let sc := ops.meanStdDev (labOf ops wi) over0
  let ob := ops.meanStdDev (labOf ops wj) over1
  ((labOf ops wj).mapPx (transferPixel sc.1 sc.2 ob.1 ob.2) Depth.CV_8U).mapPx
    ops.lab2bgr Depth.CV_8U

/-- The body of the loop of `correctColor` for the pair `(i, i + 1)`. -/
def colorStep (ops : ColorOps) (b : Blender Image) (i : Nat) : Except String (Blender Image) :=
  match b.getOverlapMasks (i + 1) i with
  | .error e => .error e
  | .ok over_masks =>
    match over_masks[0]?, over_masks[1]?, b.warp_imgs[i]?, b.warp_imgs[i + 1]? with
    | some over0, some over1, some wi, some wj =>
      .ok { b with warp_imgs :=
              (b.warp_imgs.set i (roundTrip ops wi)).set (i + 1) (corrected ops over0 over1 wi wj) }
    | _, _, _, _ => .error "index out of range"

/-- The iterations `i, i + 1, ..., i + count - 1` of the loop of `correctColor`. -/
def colorLoop (ops : ColorOps) : Nat → Nat → Blender Image → Except String (Blender Image)
  | _, 0, b => .ok b
  | i, count + 1, b =>
    match colorStep ops b i with
    | .error e => .error e
    | .ok b1 => colorLoop ops (i + 1) count b1

/-- The method `Blender::correctColor`: the loop runs while `i < warp_imgs.size() - 1`, an
unsigned comparison, so with no warped image the first iteration already reads past the end
of the collections. -/
def correctColor (ops : ColorOps) (b : Blender Image) : Except String (Blender Image) :=
  if b.warp_imgs.length = 0 then .error "index out of range"
  else colorLoop ops 0 (b.warp_imgs.length - 1) b

/-- An image of constant colour as `getWarpImg` returns it: depth `CV_32F`. -/
def flatImage (rows cols : Int) (v : Vec3) : Image := ⟨rows, cols, Depth.CV_32F, fun _ _ => v⟩

/-- Two staged frames with the given bounding rects and warped images, and filled masks of
the matching size. -/
def stagedImages (r0 r1 : Rect2f) (w0 w1 : Image) : Blender Image :=
  { warp_imgs := [w0, w1]
    masks := (stagedPair r0 r1).masks
    full_masks := (stagedPair r0 r1).full_masks
    bound_rect := [r0, r1] }

/-- An 8-bit value: an integer between 0 and 255. -/
def isByte (q : ℚ) : Bool := decide (q.den = 1) && decide (0 ≤ q) && decide (q ≤ 255)

/-- A pixel of 8-bit values. -/
def Vec3.isByte (v : Vec3) : Bool := m2d.isByte v.c0 && m2d.isByte v.c1 && m2d.isByte v.c2

/-- An image whose every pixel holds 8-bit values, as a warped 8-bit image converted to
`CV_32F` does. -/
def Image.isByte (w : Image) : Prop := ∀ r c, (w.px r c).isByte = true

/-- Two images of the same size with the same value at every pixel (the depths may
differ). -/
def sameValues (w w' : Image) : Prop :=
  w'.rows = w.rows ∧ w'.cols = w.cols ∧ ∀ r c, w'.px r c = w.px r c

/-! ## Compositing by direct copy -/

/-- The rect `Rect(bound_rect[i].x, bound_rect[i].y, bound_rect[i].width,
bound_rect[i].height)`: each `float` is converted to `int`. -/
def Rect2f.toRect (br : Rect2f) : Rect :=
  ⟨truncInt br.x, truncInt br.y, truncInt br.width, truncInt br.height⟩

/-- The bound check of a ROI inside a matrix of the given size. -/
def roiInside (rows cols : Int) (roi : Rect) : Bool :=
  decide (0 ≤ roi.x) && decide (0 ≤ roi.width) && decide (roi.x + roi.width ≤ cols) &&
  decide (0 ≤ roi.y) && decide (0 ≤ roi.height) && decide (roi.y + roi.height ≤ rows)

/-- The call `aux_img.copyTo(roi, mask)` where `roi` is the ROI `r` of `scene`. `Mat::copyTo`
asserts that the mask has the size of the source, then calls `create` on the destination:
when the ROI already has the size and type of the source, the pixels under a non-zero mask
value are written through it into `scene`; otherwise the local header `roi` is reallocated
and `scene` is left as it was. -/
def copyToRoi (scene : Image) (r : Rect) (aux_img : Image) (mask : Mask) :
    Except String Image :=
  if roiInside scene.rows scene.cols r = false then .error "cv::Exception: roi outside the scene"
  else if mask.rows ≠ aux_img.rows ∨ mask.cols ≠ aux_img.cols then
    .error "cv::Exception: mask size differs from the source size"
  else if aux_img.rows = r.height ∧ aux_img.cols = r.width ∧ aux_img.depth = scene.depth then
    .ok { scene with
          px := fun row col =>
            if r.contains row col ∧ mask.px (row - r.y) (col - r.x) ≠ 0 then
              aux_img.px (row - r.y) (col - r.x)
            else scene.px row col }
  else .ok scene

/-- The iterations `i, ..., i + count - 1` of the compositing loop of `blendSubMosaic` in
direct-copy mode. The local matrix `final_mask` receives the masks through the same ROI and
is never read in this mode; it is left out. -/
def compositeLoop : Nat → Nat → Image → Blender Image → Except String Image
  | _, 0, scene, _ => .ok scene
  | i, count + 1, scene, b =>
    match b.warp_imgs[i]?, b.masks[i]?, b.bound_rect[i]? with
    | some aux_img, some mask, some br =>
      match copyToRoi scene br.toRect aux_img mask with
      | .error e => .error e
      | .ok scene1 => compositeLoop (i + 1) count scene1 b
    | _, _, _ => .error "index out of range"

/-- The canvas `Mat(scene_size, CV_8UC3, Scalar(0, 0, 0))`. -/
def blackScene (rows cols : Int) : Image := ⟨rows, cols, Depth.CV_8U, fun _ _ => ⟨0, 0, 0⟩⟩

/-- The method `blendSubMosaic` in direct-copy mode, from the staged collections on (after
the optional seam finder): colour correction, then the masked copy of every frame into the
black canvas of size `scene_rows x scene_cols`; `nframes` is `frames.size()`. -/
def blendDirect (ops : ColorOps) (nframes : Nat) (scene_rows scene_cols : Int)
    (b : Blender Image) : Except String Image :=
  match correctColor ops b with
  | .error e => .error e
  | .ok b1 => compositeLoop 0 nframes (blackScene scene_rows scene_cols) b1

/-- One staged frame: a 10x10 warped image of constant colour `(9, 9, 9)` at the origin,
with a filled trim mask. -/
def stagedSingle : Blender Image :=
  { warp_imgs := [flatImage 10 10 ⟨9, 9, 9⟩]
    masks := [fullMask 10 10]
    full_masks := [fullMask 10 10]
    bound_rect := [⟨0, 0, 10, 10⟩] }

/-- The value frame `i` contributes at the canvas pixel at row `row`, column `col`: the value
of its warped image there when the pixel lies in its bounding rect and its trim mask is
non-zero at that pixel. -/
def covers (b : Blender Image) (i : Nat) (row col : Int) : Option Vec3 :=
  match b.warp_imgs[i]?, b.masks[i]?, b.bound_rect[i]? with
  | some w, some m, some br =>
    if br.toRect.contains row col ∧ m.px (row - br.toRect.y) (col - br.toRect.x) ≠ 0 then
      some (w.px (row - br.toRect.y) (col - br.toRect.x))
    else none
  | _, _, _ => none

/-- The contribution of the last frame among `lo, ..., lo + count - 1` that covers a pixel. -/
def lastCover (b : Blender Image) (row col : Int) : Nat → Nat → Option Vec3
  | _, 0 => none
  | lo, count + 1 =>
    match lastCover b row col (lo + 1) count with
    | some v => some v
    | none => covers b lo row col

/-- Frame `i` is staged for the direct copy into `scene`: its bounding rect lies inside the
canvas, its trim mask and its warped image have the size of the rect, and the warped image
has the depth of the canvas. -/
def stagedFor (scene : Image) (b : Blender Image) (i : Nat) : Prop :=
  ∃ w m br, b.warp_imgs[i]? = some w ∧ b.masks[i]? = some m ∧ b.bound_rect[i]? = some br ∧
    roiInside scene.rows scene.cols br.toRect = true ∧ m.rows = w.rows ∧ m.cols = w.cols ∧
    w.rows = br.toRect.height ∧ w.cols = br.toRect.width ∧ w.depth = scene.depth

/-! ## Frame reset -/

/-- A frame as the constructor leaves it, with the pixel data the resize, undistortion and
grey conversion of the input image produced. -/
def Frame.construct (_width _height : Int) (color : Int → Int → Nat × Nat × Nat)
    (gray : Int → Int → Nat) : Frame :=
  { Frame.new _width _height with color := color, gray := gray }

/-- The method `Frame::resetFrame`. The five assignments `bound_points[PERSPECTIVE][k] = ...`
write in place (`List.set`); an index past the end of the vector has no defined behaviour and
writes nothing here. The centre uses the integer division of C++ (`Int.tdiv`). -/
def Frame.resetFrame (f : Frame) : Frame :=
  let p0 := (f.bound_points Ref.PERSPECTIVE).set 0 ⟨0, 0⟩
  let p1 := p0.set 1 ⟨f.cols, 0⟩
  let p2 := p1.set 2 ⟨f.cols, f.rows⟩
  let p3 := p2.set 3 ⟨0, f.rows⟩
  let p4 := p3.set 4 ⟨((Int.tdiv f.cols 2 : Int) : ℚ), ((Int.tdiv f.rows 2 : Int) : ℚ)⟩
  { f with
    H := Mat3.eye
    bound_points := fun r => if r = Ref.PERSPECTIVE then p4 else f.bound_points r
    bound_rect := ⟨0, 0, f.cols, f.rows⟩
    grid_next := []
    neighbors := [] }

/-- The frame states the program reaches: construction, then any sequence of
`setHReference` calls and of writes to the public members `grid_points` and `neighbors`, in
which the registration code (not part of these sources) stores the matched points and the
adjacent frames. -/
inductive Frame.Reachable (TARGET_WIDTH TARGET_HEIGHT : ℚ) : Frame → Prop where
  | construct (_width _height : Int) (color : Int → Int → Nat × Nat × Nat)
      (gray : Int → Int → Nat) :
      Frame.Reachable TARGET_WIDTH TARGET_HEIGHT (Frame.construct _width _height color gray)
  | setHReference (f : Frame) (_H : Mat3) (_ref : Ref) :
      Frame.Reachable TARGET_WIDTH TARGET_HEIGHT f →
      Frame.Reachable TARGET_WIDTH TARGET_HEIGHT
        (f.setHReference TARGET_WIDTH TARGET_HEIGHT _H _ref)
  | matched (f : Frame) (prev next : List Point2f) :
      Frame.Reachable TARGET_WIDTH TARGET_HEIGHT f →
      Frame.Reachable TARGET_WIDTH TARGET_HEIGHT { f with grid_prev := prev, grid_next := next }
  | linked (f : Frame) (neighbors : List Nat) :
      Frame.Reachable TARGET_WIDTH TARGET_HEIGHT f →
      Frame.Reachable TARGET_WIDTH TARGET_HEIGHT { f with neighbors := neighbors }

/-- A black 640x360 frame with four matched points towards each neighbour and two adjacent
frames, moved by the translation `(5, 7)`. -/
def movedFrame : Frame :=
  ({ ({ Frame.construct 640 360 (fun _ _ => (0, 0, 0)) (fun _ _ => 0) with
        grid_prev := tileCorners, grid_next := tileCorners } : Frame) with
      neighbors := [1, 2] } : Frame).setHReference 640 360 (translation 5 7) Ref.PERSPECTIVE

/-- Matrix multiplication of `Mat3` is associative. -/
theorem Mat3.mul_assoc (a b c : Mat3) : a * b * c = a * (b * c) := by
  show Mat3.mul (Mat3.mul a b) c = Mat3.mul a (Mat3.mul b c)
  simp only [Mat3.mul, Mat3.mk.injEq]
  refine ⟨?_, ?_, ?_, ?_, ?_, ?_, ?_, ?_, ?_⟩ <;> ring

/-- A translation moves a point by its offset. -/
theorem transformPoint_translation (tx ty : ℚ) (p : Point2f) :
    transformPoint (translation tx ty) p = ⟨p.x + tx, p.y + ty⟩ := by
  have h : ¬ (1 : ℚ) ≤ FLT_EPSILON := by norm_num [FLT_EPSILON]
  simp [transformPoint, translation, h]

/-- C2: two successive `setHReference` calls in PERSPECTIVE mode accumulate the same `H`
as one call with the product `T2 * T1`. -/
theorem setHReference_compose (tw th : ℚ) (f : Frame) (T1 T2 : Mat3) :
    ((f.setHReference tw th T1 Ref.PERSPECTIVE).setHReference tw th T2 Ref.PERSPECTIVE).H
      = (f.setHReference tw th (T2 * T1) Ref.PERSPECTIVE).H := by
  simp [Frame.setHReference, Frame.updateBoundRect, Mat3.mul_assoc]

/-- Truncation leaves an integer unchanged. -/
theorem truncInt_intCast (n : Int) : truncInt (n : ℚ) = n := by
  simp [truncInt]

/-- Truncation of a non-positive value is non-positive. -/
theorem truncInt_nonpos {q : ℚ} (h : q ≤ 0) : truncInt q ≤ 0 := by
  unfold truncInt
  have hn : q.num ≤ 0 := Rat.num_nonpos.mpr h
  have h2 : 0 ≤ (-q.num).tdiv q.den := Int.tdiv_nonneg (by omega) (by exact_mod_cast Nat.zero_le _)
  rw [Int.neg_tdiv] at h2
  omega

/-- Unfolding of `getOverlapMasks` once the four collection entries are known. -/
theorem getOverlapMasks_eq {α : Type} (b : Blender α) (o s : Nat) (mo ms : Mask)
    (bo bs : Rect2f) (hmo : b.full_masks[o]? = some mo) (hms : b.full_masks[s]? = some ms)
    (hbo : b.bound_rect[o]? = some bo) (hbs : b.bound_rect[s]? = some bs) :
    b.getOverlapMasks o s =
      if roiOK mo (objRoi bo bs) = false then
        .error "cv::Exception: roi outside the object mask"
      else if roiOK ms (scRoi bo bs) = false then
        .error "cv::Exception: roi outside the scene mask"
      else .ok [andInto ms (scRoi bo bs) ms (scRoi bo bs) mo (objRoi bo bs),
                andInto mo (objRoi bo bs) ms (scRoi bo bs) mo (objRoi bo bs)] := by
  simp only [Blender.getOverlapMasks, hmo, hms, hbo, hbs]

/-- A ROI that passes the bound check has non-negative extent. -/
theorem roiOK_width_nonneg {m : Mask} {roi : Rect} (h : roiOK m roi = true) :
    0 ≤ roi.width ∧ 0 ≤ roi.height := by
  simp [roiOK] at h
  omega

/-- A rectangle of non-positive width or height contains no pixel. -/
theorem contains_of_empty {roi : Rect} (h : roi.width ≤ 0 ∨ roi.height ≤ 0) (r c : Int) :
    roi.contains r c = false := by
  simp only [Rect.contains, Bool.and_eq_false_iff, decide_eq_false_iff_not]
  omega

/-- C3, as stated, fails: two staged 10x10 frames ten pixels apart do not overlap, and
`getOverlapMasks` raises `cv::Exception` (the ROI has width `-10`). -/
theorem getOverlapMasks_apart_raises :
    interWidth ⟨0, 0, 10, 10⟩ ⟨20, 0, 10, 10⟩ ≤ 0 ∧
    (stagedPair ⟨0, 0, 10, 10⟩ ⟨20, 0, 10, 10⟩).getOverlapMasks 0 1
      = .error "cv::Exception: roi outside the object mask" := by
  constructor
  · norm_num [interWidth]
  · rw [getOverlapMasks_eq (stagedPair ⟨0, 0, 10, 10⟩ ⟨20, 0, 10, 10⟩) 0 1
      (fullMask (truncInt 10) (truncInt 10)) (fullMask (truncInt 10) (truncInt 10))
      ⟨0, 0, 10, 10⟩ ⟨20, 0, 10, 10⟩ rfl rfl rfl rfl]
    have h : roiOK (fullMask (truncInt 10) (truncInt 10)) (objRoi ⟨0, 0, 10, 10⟩ ⟨20, 0, 10, 10⟩)
        = false := by
      norm_num [objRoi, roiOK]
      decide
    simp [h]

/-- C3 (amended): for non-overlapping bounding rects, `getOverlapMasks` returns two
all-zero masks, each of the size of its source mask, whenever both ROIs pass the bound check
of OpenCV, and it raises `cv::Exception` whenever the truncated intersection width or height
is negative. -/
theorem getOverlapMasks_disjoint {α : Type} (b : Blender α) (o s : Nat) (mo ms : Mask)
    (bo bs : Rect2f) (hmo : b.full_masks[o]? = some mo) (hms : b.full_masks[s]? = some ms)
    (hbo : b.bound_rect[o]? = some bo) (hbs : b.bound_rect[s]? = some bs)
    (hd : interWidth bo bs ≤ 0 ∨ interHeight bo bs ≤ 0) :
    (roiOK mo (objRoi bo bs) = true → roiOK ms (scRoi bo bs) = true →
      ∃ m0 m1, b.getOverlapMasks o s = .ok [m0, m1] ∧
        m0.rows = ms.rows ∧ m0.cols = ms.cols ∧ m1.rows = mo.rows ∧ m1.cols = mo.cols ∧
        ∀ r c, m0.px r c = 0 ∧ m1.px r c = 0) ∧
    (truncInt (interWidth bo bs) < 0 ∨ truncInt (interHeight bo bs) < 0 →
      ∃ e, b.getOverlapMasks o s = .error e) := by
  have hw : (objRoi bo bs).width ≤ 0 ∨ (objRoi bo bs).height ≤ 0 := by
    rcases hd with h | h
    · exact Or.inl (truncInt_nonpos h)
    · exact Or.inr (truncInt_nonpos h)
  rw [getOverlapMasks_eq b o s mo ms bo bs hmo hms hbo hbs]
  constructor
  · intro h1 h2
    refine ⟨andInto ms (scRoi bo bs) ms (scRoi bo bs) mo (objRoi bo bs),
      andInto mo (objRoi bo bs) ms (scRoi bo bs) mo (objRoi bo bs), ?_, rfl, rfl, rfl, rfl, ?_⟩
    · simp [h1, h2]
    · intro r c
      have e1 : (scRoi bo bs).contains r c = false :=
        @contains_of_empty (scRoi bo bs) hw r c
      have e2 : (objRoi bo bs).contains r c = false := contains_of_empty hw r c
      simp [andInto, e1, e2]
  · intro hneg
    have h1 : roiOK mo (objRoi bo bs) = false := by
      cases h : roiOK mo (objRoi bo bs)
      · rfl
      · have := roiOK_width_nonneg h
        simp only [objRoi] at this
        simp only [interWidth, interHeight] at hneg
        omega
    exact ⟨"cv::Exception: roi outside the object mask", by simp [h1]⟩

/-- The amended C3 at two touching 10x10 frames: the call returns two all-zero masks. -/
theorem getOverlapMasks_disjoint_witness :
    ∃ m0 m1, (stagedPair ⟨0, 0, 10, 10⟩ ⟨10, 0, 10, 10⟩).getOverlapMasks 0 1 = .ok [m0, m1] ∧
      m0.rows = (fullMask (truncInt 10) (truncInt 10)).rows ∧
      m0.cols = (fullMask (truncInt 10) (truncInt 10)).cols ∧
      m1.rows = (fullMask (truncInt 10) (truncInt 10)).rows ∧
      m1.cols = (fullMask (truncInt 10) (truncInt 10)).cols ∧
      ∀ r c, m0.px r c = 0 ∧ m1.px r c = 0 :=
  (getOverlapMasks_disjoint (stagedPair ⟨0, 0, 10, 10⟩ ⟨10, 0, 10, 10⟩) 0 1
    (fullMask (truncInt 10) (truncInt 10)) (fullMask (truncInt 10) (truncInt 10))
    ⟨0, 0, 10, 10⟩ ⟨10, 0, 10, 10⟩ rfl rfl rfl rfl (Or.inl (by norm_num [interWidth]))).1
    (by norm_num [objRoi, roiOK, fullMask]; decide)
    (by norm_num [scRoi, objRoi, roiOK, fullMask]; decide)


/-- A rational has denominator one exactly when it is an integer. -/
theorem den_eq_one_iff_exists (q : ℚ) : q.den = 1 ↔ ∃ k : Int, q = k :=
  ⟨fun h => ⟨q.num, ((Rat.den_eq_one_iff q).mp h).symm⟩,
   fun ⟨k, hk⟩ => by rw [hk]; exact Rat.den_intCast k⟩

/-- Subtracting an integer does not change whether a rational is an integer. -/
theorem den_sub_intCast (q : ℚ) (n : Int) : (q - n).den = 1 ↔ q.den = 1 := by
  rw [den_eq_one_iff_exists, den_eq_one_iff_exists]
  constructor
  · rintro ⟨k, hk⟩
    exact ⟨k + n, by push_cast; linarith⟩
  · rintro ⟨k, hk⟩
    exact ⟨k - n, by push_cast; linarith⟩

/-- Numerator of an integer-valued rational minus an integer. -/
theorem num_sub_intCast (q : ℚ) (n : Int) (h : q.den = 1) : (q - n).num = q.num - n := by
  have h2 : q - n = ((q.num - n : Int) : ℚ) := by
    push_cast
    rw [(Rat.den_eq_one_iff q).mp h]
  rw [h2, Rat.num_intCast]

/-- The object ROI for integer bounding rects. -/
theorem objRoi_ofInt (ox oy ow oh sx sy sw sh : Int) :
    objRoi (Rect2f.ofInt ox oy ow oh) (Rect2f.ofInt sx sy sw sh) =
      ⟨max (sx - ox) 0, max (sy - oy) 0, min (sx + sw) (ox + ow) - max sx ox,
       min (sy + sh) (oy + oh) - max sy oy⟩ := by
  simp only [objRoi, Rect2f.ofInt, ← Int.cast_sub, ← Int.cast_add, ← Int.cast_max,
    ← Int.cast_min, ← @Int.cast_zero ℚ _, truncInt_intCast]

/-- The scene ROI for integer bounding rects. -/
theorem scRoi_ofInt (ox oy ow oh sx sy sw sh : Int) :
    scRoi (Rect2f.ofInt ox oy ow oh) (Rect2f.ofInt sx sy sw sh) =
      ⟨max (ox - sx) 0, max (oy - sy) 0, min (sx + sw) (ox + ow) - max sx ox,
       min (sy + sh) (oy + oh) - max sy oy⟩ := by
  simp only [scRoi, objRoi_ofInt]
  simp only [Rect2f.ofInt, ← Int.cast_sub, ← Int.cast_add, ← Int.cast_max,
    ← Int.cast_min, ← @Int.cast_zero ℚ _, truncInt_intCast]

/-- Swapping the roles of the two frames swaps the two ROIs: each frame keeps the same
local region in `getOverlapMasks(a, b)` and in `getOverlapMasks(b, a)`. -/
theorem objRoi_eq_scRoi_swap (a b : Rect2f) : objRoi a b = scRoi b a ∧ scRoi a b = objRoi b a := by
  simp [objRoi, scRoi, min_comm, max_comm]

/-- For bounding rects with integer coordinates, the ROI kept in the object-local mask and
the ROI kept in the scene-local mask, each translated by the origin of its own bounding rect,
are the same set of global points, namely the integer points of the axis-aligned intersection
of the two rects; and each frame keeps the same ROI whichever of the two is the object. -/
theorem overlap_regions_integer (ox oy ow oh sx sy sw sh : Int) (gx gy : ℚ) :
    inGlobal (Rect2f.ofInt ox oy ow oh)
        (objRoi (Rect2f.ofInt ox oy ow oh) (Rect2f.ofInt sx sy sw sh)) gx gy
      = inGlobal (Rect2f.ofInt sx sy sw sh)
        (scRoi (Rect2f.ofInt ox oy ow oh) (Rect2f.ofInt sx sy sw sh)) gx gy ∧
    inGlobal (Rect2f.ofInt ox oy ow oh)
        (objRoi (Rect2f.ofInt ox oy ow oh) (Rect2f.ofInt sx sy sw sh)) gx gy
      = (decide (gx.den = 1) && decide (gy.den = 1) &&
          inIntersection (Rect2f.ofInt ox oy ow oh) (Rect2f.ofInt sx sy sw sh) gx gy) ∧
    objRoi (Rect2f.ofInt ox oy ow oh) (Rect2f.ofInt sx sy sw sh)
      = scRoi (Rect2f.ofInt sx sy sw sh) (Rect2f.ofInt ox oy ow oh) ∧
    scRoi (Rect2f.ofInt ox oy ow oh) (Rect2f.ofInt sx sy sw sh)
      = objRoi (Rect2f.ofInt sx sy sw sh) (Rect2f.ofInt ox oy ow oh) := by
  have hreg :
      inGlobal (Rect2f.ofInt ox oy ow oh)
          (objRoi (Rect2f.ofInt ox oy ow oh) (Rect2f.ofInt sx sy sw sh)) gx gy
        = inGlobal (Rect2f.ofInt sx sy sw sh)
          (scRoi (Rect2f.ofInt ox oy ow oh) (Rect2f.ofInt sx sy sw sh)) gx gy ∧
      inGlobal (Rect2f.ofInt ox oy ow oh)
          (objRoi (Rect2f.ofInt ox oy ow oh) (Rect2f.ofInt sx sy sw sh)) gx gy
        = (decide (gx.den = 1) && decide (gy.den = 1) &&
            inIntersection (Rect2f.ofInt ox oy ow oh) (Rect2f.ofInt sx sy sw sh) gx gy) := by
    rw [objRoi_ofInt, scRoi_ofInt]
    by_cases hx : gx.den = 1
    · by_cases hy : gy.den = 1
      · obtain ⟨a, rfl⟩ := (den_eq_one_iff_exists gx).mp hx
        obtain ⟨b, rfl⟩ := (den_eq_one_iff_exists gy).mp hy
        simp only [inGlobal, Rect2f.ofInt, ← Int.cast_sub, Rat.den_intCast, Rat.num_intCast,
          Rect.contains, inIntersection, ← Int.cast_add, ← Int.cast_max, ← Int.cast_min,
          Int.cast_le, Int.cast_lt, decide_True, Bool.true_and]
        constructor
        · rw [Bool.eq_iff_iff]
          simp only [Bool.and_eq_true, decide_eq_true_eq]
          omega
        · rw [Bool.eq_iff_iff]
          simp only [Bool.and_eq_true, decide_eq_true_eq]
          omega
      · simp [inGlobal, Rect2f.ofInt, den_sub_intCast, hx, hy]
    · simp [inGlobal, Rect2f.ofInt, den_sub_intCast, hx]
  exact ⟨hreg.1, hreg.2, (objRoi_eq_scRoi_swap _ _).1, (objRoi_eq_scRoi_swap _ _).2⟩

/-- C4, as stated, fails: for the overlapping rects `(0, 0, 10, 10)` and
`(1/2, 0, 10, 10)` the global point `(0, 0)` lies in the translated object region and not in
the translated scene region. -/
theorem overlap_regions_fractional :
    0 < interWidth ⟨0, 0, 10, 10⟩ ⟨1 / 2, 0, 10, 10⟩ ∧
    0 < interHeight ⟨0, 0, 10, 10⟩ ⟨1 / 2, 0, 10, 10⟩ ∧
    inGlobal ⟨0, 0, 10, 10⟩ (objRoi ⟨0, 0, 10, 10⟩ ⟨1 / 2, 0, 10, 10⟩) 0 0 = true ∧
    inGlobal ⟨1 / 2, 0, 10, 10⟩ (scRoi ⟨0, 0, 10, 10⟩ ⟨1 / 2, 0, 10, 10⟩) 0 0 = false := by
  have e1 : ((1 : ℚ) / 2) = mkRat 1 2 := by norm_num
  have e2 : ((19 : ℚ) / 2) = mkRat 19 2 := by norm_num
  refine ⟨by norm_num [interWidth], by norm_num [interHeight], ?_, ?_⟩
  · norm_num [inGlobal, objRoi, Rect.contains]
    rw [e1, e2]
    decide
  · norm_num [inGlobal, scRoi, objRoi, Rect.contains]

/-- Unfolding of the local result of `cropMask` once both ROIs pass the bound check. -/
theorem cropMaskLocal_eq {α : Type} (b : Blender α) (o s : Nat) (mo ms : Mask)
    (bo bs : Rect2f) (hbo : b.bound_rect[o]? = some bo) (hbs : b.bound_rect[s]? = some bs)
    (hmo : b.masks[o]? = some mo) (hms : b.masks[s]? = some ms)
    (h1 : roiOK mo (cropObjRoi bo bs) = true) (h2 : roiOK ms (cropScRoi bo bs) = true) :
    b.cropMaskLocal o s = .ok
      { rows := ms.rows
        cols := ms.cols
        px := fun r c =>
          if (cropScRoi bo bs).contains r c then
            ms.px r c - mo.px (r - (cropScRoi bo bs).y + (cropObjRoi bo bs).y)
              (c - (cropScRoi bo bs).x + (cropObjRoi bo bs).x)
          else ms.px r c } := by
  simp [Blender.cropMaskLocal, hbo, hbs, hmo, hms, h1, h2]

/-- Whenever `cropMask` returns, the Blender it returns is the one it was given. -/
theorem cropMask_keeps_state {α : Type} (b b' : Blender α) (o s : Nat)
    (h : b.cropMask o s = .ok b') : b' = b := by
  unfold Blender.cropMask at h
  cases hl : b.cropMaskLocal o s with
  | ok m => rw [hl] at h; injection h with h; exact h.symm
  | error e => rw [hl] at h; cases h

/-- C5 at a failing input: for two staged 10x10 frames overlapping on five columns,
`cropMask(0, 1)` returns with the stored scene mask still 255 at the scene-local pixel
`(0, 0)` of the overlap, where the object mask is non-zero. -/
theorem cropMask_scene_mask_untouched :
    0 < interWidth ⟨0, 0, 10, 10⟩ ⟨5, 0, 10, 10⟩ ∧
    0 < interHeight ⟨0, 0, 10, 10⟩ ⟨5, 0, 10, 10⟩ ∧
    (cropScRoi ⟨0, 0, 10, 10⟩ ⟨5, 0, 10, 10⟩).contains 0 0 = true ∧
    (fullMask (truncInt 10) (truncInt 10)).px 0 5 ≠ 0 ∧
    ∃ b', (stagedPair ⟨0, 0, 10, 10⟩ ⟨5, 0, 10, 10⟩).cropMask 0 1 = .ok b' ∧
      ∃ m, b'.masks[1]? = some m ∧ m.px 0 0 = 255 := by
  have hroi1 : cropObjRoi ⟨0, 0, 10, 10⟩ ⟨5, 0, 10, 10⟩ = ⟨5, 0, 5, 10⟩ := by
    norm_num [cropObjRoi]
    decide
  have hroi2 : cropScRoi ⟨0, 0, 10, 10⟩ ⟨5, 0, 10, 10⟩ = ⟨0, 0, 5, 10⟩ := by
    norm_num [cropScRoi, hroi1]
    decide
  refine ⟨by norm_num [interWidth], by norm_num [interHeight], by rw [hroi2]; decide,
    by simp [fullMask], stagedPair ⟨0, 0, 10, 10⟩ ⟨5, 0, 10, 10⟩, ?_, ?_⟩
  · have hl := cropMaskLocal_eq (stagedPair ⟨0, 0, 10, 10⟩ ⟨5, 0, 10, 10⟩) 0 1
      (fullMask (truncInt 10) (truncInt 10)) (fullMask (truncInt 10) (truncInt 10))
      ⟨0, 0, 10, 10⟩ ⟨5, 0, 10, 10⟩ rfl rfl rfl rfl
      (by rw [hroi1]; decide) (by rw [hroi2]; decide)
    simp [Blender.cropMask, hl]
  · exact ⟨fullMask (truncInt 10) (truncInt 10), rfl, rfl⟩

/-- C1 at a failing input: a 640x360 frame translated by `(-1000, 0)` gets the bounding rect
`(-1000, 0, 1000, 360)`, while the envelope of its four corners is `(-1000, 0, 640, 360)`. -/
theorem updateBoundRect_stale_seed :
    ((Frame.new 640 360).setHReference 640 360 (translation (-1000) 0) Ref.PERSPECTIVE).bound_rect
      = ⟨-1000, 0, 1000, 360⟩ ∧
    envelope ((((Frame.new 640 360).setHReference 640 360 (translation (-1000) 0)
      Ref.PERSPECTIVE).bound_points Ref.PERSPECTIVE).take 4) = ⟨-1000, 0, 640, 360⟩ := by
  have e1 : Int.tdiv 640 2 = 320 := by decide
  have e2 : Int.tdiv 360 2 = 180 := by decide
  constructor
  · simp [Frame.setHReference, Frame.updateBoundRect, Frame.new, perspectiveTransform,
      transformPoint_translation, Extrema.step, e1, e2]
    norm_num
  · simp [Frame.setHReference, Frame.updateBoundRect, Frame.new, perspectiveTransform,
      transformPoint_translation, envelope]

/-- The contour of an untransformed tile with its centre as fifth vertex encloses three
quarters of the tile. -/
theorem contourArea_tile (w h : ℚ) (hw : 0 ≤ w) (hh : 0 ≤ h) :
    contourArea [⟨0, 0⟩, ⟨w, 0⟩, ⟨w, h⟩, ⟨0, h⟩, ⟨w / 2, h / 2⟩] = 3 / 4 * w * h := by
  simp only [contourArea, List.getLast?, List.getLast, shoelace]
  have : (w / 2 * 0 - h / 2 * 0 + (0 * 0 - 0 * w + (w * h - 0 * w + (w * h - h * 0 +
      (0 * (h / 2) - h * (w / 2) + 0))))) * (1 / 2) = 3 / 4 * w * h := by ring
  rw [this]
  exact abs_of_nonneg (by positivity)

/-- Two equal positive semi-diagonals have ratio one. -/
theorem semiDiagRatio_self (a b : ℚ) (h : a = b) (hb : 0 < b) : semiDiagRatio a b = 1 := by
  subst h
  simp [semiDiagRatio, div_self (ne_of_gt hb)]

/-- C10: a frame on a tile of even positive size `W x H` whose perspective bound points are
those of construction (the four corners and the centre) and whose PREV matched points have a
hull of area at least `0.2 W H` passes `isGoodFrame`: its contour area is at most `1.5 W H` and
both semi-diagonal ratios are at most `1.6`. `getDistance` is any distance that depends only
on the squared coordinate differences and is positive between distinct points. -/
theorem isGoodFrame_identity (getDistance : Point2f → Point2f → ℚ)
    (hull : List Point2f → List Point2f)
    (hcong : ∀ p q p' q', sqDist p q = sqDist p' q' → getDistance p q = getDistance p' q')
    (hpos : ∀ p q, p ≠ q → 0 < getDistance p q)
    (W H : Int) (hW : 0 < W) (hH : 0 < H) (hW2 : 2 ∣ W) (hH2 : 2 ∣ H) (f : Frame)
    (hpts : f.bound_points Ref.PERSPECTIVE = (Frame.new W H).bound_points Ref.PERSPECTIVE)
    (hc : f.cols = W) (hr : f.rows = H)
    (hk : 1 / 5 * (W : ℚ) * H ≤ f.boundAreaKeypoints hull) :
    contourArea (f.bound_points Ref.PERSPECTIVE) ≤ 3 / 2 * W * H ∧
    semiDiagRatio (f.semiDiag getDistance 0) (f.semiDiag getDistance 2) ≤ 8 / 5 ∧
    semiDiagRatio (f.semiDiag getDistance 1) (f.semiDiag getDistance 3) ≤ 8 / 5 ∧
    f.isGoodFrame getDistance hull = true := by
  obtain ⟨a, rfl⟩ := hW2
  obtain ⟨b, rfl⟩ := hH2
  have ha : (0 : ℚ) < a := by exact_mod_cast (by omega : 0 < a)
  have hb : (0 : ℚ) < b := by exact_mod_cast (by omega : 0 < b)
  have hbp : f.bound_points Ref.PERSPECTIVE =
      [⟨0, 0⟩, ⟨2 * a, 0⟩, ⟨2 * a, 2 * b⟩, ⟨0, 2 * b⟩, ⟨(2 * (a : ℚ)) / 2, (2 * (b : ℚ)) / 2⟩] := by
    rw [hpts]
    simp [Frame.new]
  have harea : contourArea (f.bound_points Ref.PERSPECTIVE) = 3 / 4 * (2 * a) * (2 * b) := by
    rw [hbp]
    exact contourArea_tile (2 * a) (2 * b) (by positivity) (by positivity)
  have hne : ∀ x y : ℚ, (x ≠ a ∨ y ≠ b) → (⟨x, y⟩ : Point2f) ≠ ⟨a, b⟩ := by
    intro x y hxy heq
    injection heq with h1 h2
    rcases hxy with h | h
    · exact h h1
    · exact h h2
  have hr0 : semiDiagRatio (f.semiDiag getDistance 0) (f.semiDiag getDistance 2) = 1 := by
    apply semiDiagRatio_self
    · simp only [Frame.semiDiag, hbp, List.getD_cons_zero, List.getD_cons_succ]
      apply hcong
      simp only [sqDist]
      ring
    · simp only [Frame.semiDiag, hbp, List.getD_cons_zero, List.getD_cons_succ]
      apply hpos
      have : (2 * (a : ℚ)) / 2 = a := by ring
      have : (2 * (b : ℚ)) / 2 = b := by ring
      simp only [*]
      exact hne _ _ (Or.inl (by linarith))
  have hr1 : semiDiagRatio (f.semiDiag getDistance 1) (f.semiDiag getDistance 3) = 1 := by
    apply semiDiagRatio_self
    · simp only [Frame.semiDiag, hbp, List.getD_cons_zero, List.getD_cons_succ]
      apply hcong
      simp only [sqDist]
      ring
    · simp only [Frame.semiDiag, hbp, List.getD_cons_zero, List.getD_cons_succ]
      apply hpos
      have : (2 * (a : ℚ)) / 2 = a := by ring
      have : (2 * (b : ℚ)) / 2 = b := by ring
      simp only [*]
      exact hne _ _ (Or.inl (by linarith))
  have hA : contourArea (f.bound_points Ref.PERSPECTIVE) ≤ 3 / 2 * ((2 * a : Int) : ℚ) * ((2 * b : Int) : ℚ) := by
    rw [harea]
    push_cast
    nlinarith [mul_pos ha hb]
  refine ⟨hA, by rw [hr0]; norm_num, by rw [hr1]; norm_num, ?_⟩
  unfold Frame.isGoodFrame
  simp only [hr0, hr1, hc, hr]
  rw [if_neg (not_lt.mpr hA)]
  rw [if_neg (by norm_num)]
  rw [if_neg (not_lt.mpr hk)]

/-- The squared distance between distinct points is positive. -/
theorem sqDist_pos (p q : Point2f) (h : p ≠ q) : 0 < sqDist p q := by
  have hne : p.x - q.x ≠ 0 ∨ p.y - q.y ≠ 0 := by
    by_contra hcon
    push_neg at hcon
    apply h
    cases p; cases q
    simp only [Point2f.mk.injEq]
    exact ⟨by linarith [hcon.1], by linarith [hcon.2]⟩
  unfold sqDist
  rcases hne with h1 | h1
  · have := mul_self_pos.mpr h1
    nlinarith [mul_self_nonneg (p.y - q.y)]
  · have := mul_self_pos.mpr h1
    nlinarith [mul_self_nonneg (p.x - q.x)]

/-- C10 at the 640x360 tile with matched points at its four corners. -/
theorem isGoodFrame_identity_witness :
    (gridFrame tileCorners []).isGoodFrame sqDist id = true :=
  (isGoodFrame_identity sqDist id (fun _ _ _ _ h => h) sqDist_pos 640 360 (by decide) (by decide)
    (by decide) (by decide) (gridFrame tileCorners []) rfl rfl rfl
    (by
      simp only [Frame.boundAreaKeypoints, gridFrame, tileCorners, id, contourArea,
        List.getLast?, List.getLast, shoelace]
      norm_num)).2.2.2

/-- The overlap masks depend on the full masks and the bounding rects only. -/
theorem getOverlapMasks_congr {α β : Type} (b : Blender α) (b' : Blender β)
    (hm : b'.full_masks = b.full_masks) (hr : b'.bound_rect = b.bound_rect) (o s : Nat) :
    b'.getOverlapMasks o s = b.getOverlapMasks o s := by
  simp only [Blender.getOverlapMasks, hm, hr]

/-- A successful `getOverlapMasks` returns exactly two masks. -/
theorem getOverlapMasks_two {α : Type} (b : Blender α) (o s : Nat) (ms : List Mask)
    (h : b.getOverlapMasks o s = .ok ms) : ∃ m0 m1, ms = [m0, m1] := by
  unfold Blender.getOverlapMasks at h
  split at h
  · dsimp only at h
    split at h
    · cases h
    · split at h
      · cases h
      · injection h with h
        exact ⟨_, _, h.symm⟩
  · cases h

/-- One iteration of `correctColor` on a pair whose overlap masks exist: the scene image is
replaced by its round trip and the object image by its corrected version. -/
theorem colorStep_eq (ops : ColorOps) (b : Blender Image) (i : Nat) (m0 m1 : Mask)
    (wi wj : Image) (hov : b.getOverlapMasks (i + 1) i = .ok [m0, m1])
    (hi : b.warp_imgs[i]? = some wi) (hj : b.warp_imgs[i + 1]? = some wj) :
    colorStep ops b i = .ok { b with warp_imgs :=
      (b.warp_imgs.set i (roundTrip ops wi)).set (i + 1) (corrected ops m0 m1 wi wj) } := by
  simp [colorStep, hov, hi, hj]

/-- The loop of `correctColor` from index `i` on: it returns when every pair it visits has
overlap masks, and it leaves the images below `i`, the masks and the bounding rects as they
were. -/
theorem colorLoop_spec (ops : ColorOps) (count : Nat) :
    ∀ (i : Nat) (b : Blender Image), (count = 0 ∨ i + count < b.warp_imgs.length) →
      (∀ k, i ≤ k → k < i + count → ∃ ms, b.getOverlapMasks (k + 1) k = .ok ms) →
      ∃ b', colorLoop ops i count b = .ok b' ∧ b'.full_masks = b.full_masks ∧
        b'.bound_rect = b.bound_rect ∧ b'.masks = b.masks ∧
        b'.warp_imgs.length = b.warp_imgs.length ∧
        ∀ j, j < i → b'.warp_imgs[j]? = b.warp_imgs[j]? := by
  induction count with
  | zero =>
    intro i b _ _
    exact ⟨b, rfl, rfl, rfl, rfl, rfl, fun _ _ => rfl⟩
  | succ n ih =>
    intro i b hlen hov
    have hlen' : i + (n + 1) < b.warp_imgs.length := by
      rcases hlen with h | h
      · omega
      · exact h
    obtain ⟨ms, hms⟩ := hov i (le_refl _) (by omega)
    obtain ⟨m0, m1, rfl⟩ := getOverlapMasks_two b (i + 1) i ms hms
    obtain ⟨wi, hi⟩ : ∃ wi, b.warp_imgs[i]? = some wi :=
      ⟨b.warp_imgs[i], List.getElem?_eq_getElem (by omega)⟩
    obtain ⟨wj, hj⟩ : ∃ wj, b.warp_imgs[i + 1]? = some wj :=
      ⟨b.warp_imgs[i + 1], List.getElem?_eq_getElem (by omega)⟩
    have hstep := colorStep_eq ops b i m0 m1 wi wj hms hi hj
    obtain ⟨b', hb', hfm, hbr, hmk, hl, hpre⟩ := ih (i + 1)
      { b with warp_imgs :=
          (b.warp_imgs.set i (roundTrip ops wi)).set (i + 1) (corrected ops m0 m1 wi wj) }
      (Or.inr (by simp only [List.length_set]; omega))
      (fun k hk1 hk2 => hov k (by omega) (by omega))
    refine ⟨b', ?_, hfm, hbr, hmk, ?_, ?_⟩
    · simp only [colorLoop, hstep]
      exact hb'
    · rw [hl]
      simp only [List.length_set]
    · intro j hj'
      rw [hpre j (by omega)]
      simp only
      rw [List.getElem?_set_ne (by omega), List.getElem?_set_ne (by omega)]

/-- Rounding leaves an integer unchanged. -/
theorem cvRound_intCast (n : Int) : cvRound (n : ℚ) = n := by
  simp [cvRound]

/-- The saturating cast leaves an 8-bit value unchanged. -/
theorem saturate_cast_uchar_byte (n : Int) (h0 : 0 ≤ n) (h1 : n ≤ 255) :
    saturate_cast_uchar (n : ℚ) = n := by
  simp only [saturate_cast_uchar, cvRound_intCast]
  rw [min_eq_right h1, max_eq_right h0]

/-- Two staged 10x10 frames overlapping on five columns have overlap masks. -/
theorem stagedImages_overlap (w0 w1 : Image) :
    ∃ ms, (stagedImages ⟨0, 0, 10, 10⟩ ⟨5, 0, 10, 10⟩ w0 w1).getOverlapMasks (0 + 1) 0
      = .ok ms := by
  have h1 : objRoi ⟨5, 0, 10, 10⟩ ⟨0, 0, 10, 10⟩ = ⟨0, 0, 5, 10⟩ := by
    norm_num [objRoi]
    decide
  have h2 : scRoi ⟨5, 0, 10, 10⟩ ⟨0, 0, 10, 10⟩ = ⟨5, 0, 5, 10⟩ := by
    norm_num [scRoi, h1]
    decide
  rw [getOverlapMasks_eq (stagedImages ⟨0, 0, 10, 10⟩ ⟨5, 0, 10, 10⟩ w0 w1) (0 + 1) 0
    (fullMask (truncInt 10) (truncInt 10)) (fullMask (truncInt 10) (truncInt 10))
    ⟨5, 0, 10, 10⟩ ⟨0, 0, 10, 10⟩ rfl rfl rfl rfl, h1, h2]
  have e1 : roiOK (fullMask (truncInt 10) (truncInt 10)) ⟨0, 0, 5, 10⟩ = true := by decide
  have e2 : roiOK (fullMask (truncInt 10) (truncInt 10)) ⟨5, 0, 5, 10⟩ = true := by decide
  rw [e1, e2]
  exact ⟨_, rfl⟩

/-- The method `correctColor` on two staged images whose overlap masks exist. -/
theorem correctColor_two (ops : ColorOps) (b : Blender Image) (w0 w1 : Image) (m0 m1 : Mask)
    (hw : b.warp_imgs = [w0, w1]) (hov : b.getOverlapMasks (0 + 1) 0 = .ok [m0, m1]) :
    correctColor ops b
      = .ok { b with warp_imgs := [roundTrip ops w0, corrected ops m0 m1 w0 w1] } := by
  have hstep := colorStep_eq ops b 0 m0 m1 w0 w1 hov (by rw [hw]; rfl) (by rw [hw]; rfl)
  unfold correctColor
  rw [if_neg (by rw [hw]; simp)]
  have hc : b.warp_imgs.length - 1 = 0 + 1 := by rw [hw]; rfl
  rw [hc]
  simp only [colorLoop, hstep, hw, List.set_cons_zero, List.set_cons_succ]

/-- C8 (amended): `correctColor` returns when every consecutive pair has overlap masks, and
the image at index 0 afterwards depends on the image at index 0 only: it is unchanged when it
is the only staged image, and otherwise it is its 8-bit conversion taken to Lab and back to
BGR, with no statistical transfer applied. -/
theorem correctColor_frame0 (ops : ColorOps) (b : Blender Image) (w0 : Image)
    (h0 : b.warp_imgs[0]? = some w0)
    (hov : ∀ k, k + 1 < b.warp_imgs.length → ∃ ms, b.getOverlapMasks (k + 1) k = .ok ms) :
    ∃ b', correctColor ops b = .ok b' ∧ b'.warp_imgs.length = b.warp_imgs.length ∧
      b'.warp_imgs[0]? = some (if b.warp_imgs.length = 1 then w0 else roundTrip ops w0) := by
  have hpos : 0 < b.warp_imgs.length := by
    rcases Nat.eq_zero_or_pos b.warp_imgs.length with h | h
    · rw [List.length_eq_zero] at h
      rw [h] at h0
      cases h0
    · exact h
  unfold correctColor
  rw [if_neg (by omega)]
  rcases Nat.eq_or_lt_of_le (Nat.succ_le_of_lt hpos) with h1 | h1
  · have h1' : b.warp_imgs.length = 1 := h1.symm
    have h0' : b.warp_imgs.length - 1 = 0 := by omega
    rw [h0']
    exact ⟨b, rfl, rfl, by simp [h0, h1']⟩
  · have h2 : 1 < b.warp_imgs.length := h1
    obtain ⟨m, hm⟩ : ∃ m, b.warp_imgs.length - 1 = m + 1 := ⟨b.warp_imgs.length - 2, by omega⟩
    rw [hm]
    obtain ⟨ms, hms⟩ := hov 0 (by omega)
    obtain ⟨m0, m1, rfl⟩ := getOverlapMasks_two b (0 + 1) 0 ms hms
    obtain ⟨wj, hj⟩ : ∃ wj, b.warp_imgs[0 + 1]? = some wj :=
      ⟨b.warp_imgs[0 + 1], List.getElem?_eq_getElem (by omega)⟩
    have hstep := colorStep_eq ops b 0 m0 m1 w0 wj hms h0 hj
    obtain ⟨b', hb', _, _, _, hl, hpre⟩ := colorLoop_spec ops m (0 + 1)
      { b with warp_imgs :=
          (b.warp_imgs.set 0 (roundTrip ops w0)).set (0 + 1) (corrected ops m0 m1 w0 wj) }
      (Or.inr (by simp only [List.length_set]; omega))
      (fun k _ hk2 => hov k (by omega))
    refine ⟨b', ?_, ?_, ?_⟩
    · simp only [colorLoop, hstep]
      exact hb'
    · rw [hl]
      simp only [List.length_set]
    · rw [hpre 0 (by omega), if_neg (by omega)]
      simp only
      rw [List.getElem?_set_ne (by omega), List.getElem?_set_eq_of_lt _ (by omega)]

/-- The amended C8 at two staged 10x10 frames of constant colour, for every choice of the
colour collaborators. -/
theorem correctColor_frame0_witness :
    (stagedImages ⟨0, 0, 10, 10⟩ ⟨5, 0, 10, 10⟩ (flatImage 10 10 ⟨1, 1, 1⟩)
      (flatImage 10 10 ⟨7, 7, 7⟩)).warp_imgs[0]? = some (flatImage 10 10 ⟨1, 1, 1⟩) ∧
    ∀ ops : ColorOps,
      ∃ b', correctColor ops (stagedImages ⟨0, 0, 10, 10⟩ ⟨5, 0, 10, 10⟩
          (flatImage 10 10 ⟨1, 1, 1⟩) (flatImage 10 10 ⟨7, 7, 7⟩)) = .ok b' ∧
        b'.warp_imgs.length = 2 ∧
        b'.warp_imgs[0]? = some (roundTrip ops (flatImage 10 10 ⟨1, 1, 1⟩)) :=
  ⟨rfl, fun ops =>
    correctColor_frame0 ops (stagedImages ⟨0, 0, 10, 10⟩ ⟨5, 0, 10, 10⟩
      (flatImage 10 10 ⟨1, 1, 1⟩) (flatImage 10 10 ⟨7, 7, 7⟩)) (flatImage 10 10 ⟨1, 1, 1⟩) rfl
      (fun k hk => by
        have hk0 : k = 0 := by
          simp only [stagedImages, List.length_cons, List.length_nil] at hk
          omega
        subst hk0
        exact stagedImages_overlap _ _)⟩

/-- C8, as stated, fails: with two staged frames, whatever the colour collaborators compute,
the image at index 0 comes back from `correctColor` as another matrix: its depth is `CV_8U`
where the staged image had `CV_32F`, and its pixels are those the conversion to Lab and back
returns for the 8-bit values of the staged image. -/
theorem correctColor_rewrites_frame0 :
    (flatImage 10 10 ⟨1, 1, 1⟩).depth = Depth.CV_32F ∧
    ∀ ops : ColorOps,
      ∃ b', correctColor ops (stagedImages ⟨0, 0, 10, 10⟩ ⟨5, 0, 10, 10⟩
          (flatImage 10 10 ⟨1, 1, 1⟩) (flatImage 10 10 ⟨7, 7, 7⟩)) = .ok b' ∧
        ∃ w, b'.warp_imgs[0]? = some w ∧ w.depth = Depth.CV_8U ∧
          w ≠ flatImage 10 10 ⟨1, 1, 1⟩ ∧
          w.px 0 0 = ops.lab2bgr (ops.bgr2lab ⟨1, 1, 1⟩) := by
  refine ⟨rfl, fun ops => ?_⟩
  obtain ⟨ms, hms⟩ := stagedImages_overlap (flatImage 10 10 ⟨1, 1, 1⟩) (flatImage 10 10 ⟨7, 7, 7⟩)
  obtain ⟨m0, m1, rfl⟩ := getOverlapMasks_two _ _ _ ms hms
  refine ⟨_, correctColor_two ops _ _ _ m0 m1 rfl hms,
    roundTrip ops (flatImage 10 10 ⟨1, 1, 1⟩), rfl, rfl, ?_, ?_⟩
  · intro h
    have hd := congrArg Image.depth h
    simp [roundTrip, Image.mapPx, flatImage] at hd
  · have hs : saturate_cast_uchar 1 = 1 := by
      have := saturate_cast_uchar_byte 1 (by decide) (by decide)
      simpa using this
    simp only [roundTrip, labOf, convertTo8U, Image.mapPx, flatImage, Vec3.map, hs]

/-- The saturating cast leaves an 8-bit value unchanged. -/
theorem saturate_cast_uchar_isByte (q : ℚ) (h : isByte q = true) : saturate_cast_uchar q = q := by
  simp only [isByte, Bool.and_eq_true, decide_eq_true_eq] at h
  obtain ⟨⟨hd, h0⟩, h1⟩ := h
  obtain ⟨k, rfl⟩ := (den_eq_one_iff_exists q).mp hd
  exact saturate_cast_uchar_byte k (by exact_mod_cast h0) (by exact_mod_cast h1)

/-- The 8-bit conversion leaves a pixel of 8-bit values unchanged. -/
theorem map_saturate_isByte (v : Vec3) (h : v.isByte = true) :
    Vec3.map saturate_cast_uchar v = v := by
  simp only [Vec3.isByte, Bool.and_eq_true] at h
  obtain ⟨⟨h0, h1⟩, h2⟩ := h
  cases v
  simp only [Vec3.map, Vec3.mk.injEq]
  exact ⟨saturate_cast_uchar_isByte _ h0, saturate_cast_uchar_isByte _ h1,
    saturate_cast_uchar_isByte _ h2⟩

/-- With equal statistics and a non-zero standard deviation the per-channel transfer returns
every 8-bit channel value unchanged. -/
theorem transferChannel_identity (stdev mean c : ℚ) (hs : stdev ≠ 0) (hc : isByte c = true) :
    transferChannel stdev mean stdev mean c = c := by
  unfold transferChannel
  have : stdev * (c - mean) / stdev + mean = c := by
    field_simp
  rw [this]
  exact saturate_cast_uchar_isByte c hc

/-- With equal statistics and non-zero standard deviations the transfer returns every 8-bit
Lab pixel unchanged. -/
theorem transferPixel_identity (mean stdev v : Vec3) (h0 : stdev.c0 ≠ 0) (h1 : stdev.c1 ≠ 0)
    (h2 : stdev.c2 ≠ 0) (hv : v.isByte = true) : transferPixel mean stdev mean stdev v = v := by
  simp only [Vec3.isByte, Bool.and_eq_true] at hv
  obtain ⟨⟨b0, b1⟩, b2⟩ := hv
  cases v
  simp only [transferPixel, Vec3.mk.injEq]
  exact ⟨transferChannel_identity _ _ _ h0 b0, transferChannel_identity _ _ _ h1 b1,
    transferChannel_identity _ _ _ h2 b2⟩

/-- Images with the same values have the same Lab image. -/
theorem labOf_congr (ops : ColorOps) (w w' : Image) (h : sameValues w w') :
    labOf ops w' = labOf ops w := by
  obtain ⟨hr, hc, hp⟩ := h
  simp only [labOf, convertTo8U, Image.mapPx, hr, hc, hp]

/-- When the Lab round trip is exact on 8-bit pixels, the image stored back for the scene of
a pair has the values of any 8-bit image it has the same values as. -/
theorem roundTrip_same (ops : ColorOps)
    (w w' : Image) (hrt : ∀ r c, ops.lab2bgr (ops.bgr2lab (w.px r c)) = w.px r c)
    (hw : w.isByte) (h : sameValues w w') :
    sameValues w (roundTrip ops w') := by
  obtain ⟨hr, hc, hp⟩ := h
  refine ⟨hr, hc, fun r c => ?_⟩
  simp only [roundTrip, labOf, convertTo8U, Image.mapPx, hp]
  rw [map_saturate_isByte _ (hw r c), hrt r c]

/-- When the Lab round trip is exact, the Lab values are 8-bit and the statistics of the two
overlap regions agree with non-zero standard deviations, the corrected object image has the
values it had. -/
theorem corrected_same (ops : ColorOps)
    (m0 m1 : Mask) (wi wj wi' wj' : Image)
    (hrt : ∀ r c, ops.lab2bgr (ops.bgr2lab (wj.px r c)) = wj.px r c)
    (hlab : ∀ r c, (ops.bgr2lab (wj.px r c)).isByte = true) (hwj : wj.isByte)
    (hi : sameValues wi wi') (hj : sameValues wj wj')
    (hstat : ops.meanStdDev (labOf ops wi) m0 = ops.meanStdDev (labOf ops wj) m1)
    (h0 : (ops.meanStdDev (labOf ops wj) m1).2.c0 ≠ 0)
    (h1 : (ops.meanStdDev (labOf ops wj) m1).2.c1 ≠ 0)
    (h2 : (ops.meanStdDev (labOf ops wj) m1).2.c2 ≠ 0) :
    sameValues wj (corrected ops m0 m1 wi' wj') := by
  have e1 := labOf_congr ops wi wi' hi
  have e2 := labOf_congr ops wj wj' hj
  obtain ⟨hr, hc, hp⟩ := hj
  refine ⟨?_, ?_, fun r c => ?_⟩
  · simp only [corrected, Image.mapPx, labOf, convertTo8U, hr]
  · simp only [corrected, Image.mapPx, labOf, convertTo8U, hc]
  · simp only [corrected, e1, e2, hstat]
    generalize ops.meanStdDev (labOf ops wj) m1 = S at h0 h1 h2 ⊢
    simp only [Image.mapPx, labOf, convertTo8U]
    rw [map_saturate_isByte _ (hwj r c),
      transferPixel_identity _ _ _ h0 h1 h2 (hlab r c), hrt r c]

/-- The loop of `correctColor` keeps the values of every image when the Lab round trip is
exact, the images hold 8-bit values and the overlap statistics of every pair agree: `b0` is
the Blender before the call and `b` the one the loop has reached. -/
theorem colorLoop_same (ops : ColorOps)
    (b0 : Blender Image)
    (hrt : ∀ (j : Nat) (w : Image), b0.warp_imgs[j]? = some w →
      ∀ r c, ops.lab2bgr (ops.bgr2lab (w.px r c)) = w.px r c)
    (hlab : ∀ (j : Nat) (w : Image), b0.warp_imgs[j]? = some w →
      ∀ r c, (ops.bgr2lab (w.px r c)).isByte = true)
    (hbyte : ∀ (j : Nat) (w : Image), b0.warp_imgs[j]? = some w → w.isByte)
    (hstats : ∀ k m0 m1 wi wj, b0.getOverlapMasks (k + 1) k = .ok [m0, m1] →
      b0.warp_imgs[k]? = some wi → b0.warp_imgs[k + 1]? = some wj →
      ops.meanStdDev (labOf ops wi) m0 = ops.meanStdDev (labOf ops wj) m1 ∧
      (ops.meanStdDev (labOf ops wj) m1).2.c0 ≠ 0 ∧
      (ops.meanStdDev (labOf ops wj) m1).2.c1 ≠ 0 ∧
      (ops.meanStdDev (labOf ops wj) m1).2.c2 ≠ 0)
    (count : Nat) :
    ∀ (i : Nat) (b : Blender Image), b.full_masks = b0.full_masks →
      b.bound_rect = b0.bound_rect → b.warp_imgs.length = b0.warp_imgs.length →
      (∀ (j : Nat) (w : Image), b0.warp_imgs[j]? = some w → ∃ w', b.warp_imgs[j]? = some w' ∧ sameValues w w') →
      (count = 0 ∨ i + count < b0.warp_imgs.length) →
      (∀ k, i ≤ k → k < i + count → ∃ ms, b0.getOverlapMasks (k + 1) k = .ok ms) →
      ∃ b', colorLoop ops i count b = .ok b' ∧ b'.warp_imgs.length = b0.warp_imgs.length ∧
        ∀ (j : Nat) (w : Image), b0.warp_imgs[j]? = some w → ∃ w', b'.warp_imgs[j]? = some w' ∧ sameValues w w' := by
  induction count with
  | zero =>
    intro i b _ _ hl hinv _ _
    exact ⟨b, rfl, hl, hinv⟩
  | succ n ih =>
    intro i b hfm hbr hl hinv hlen hov
    have hlen' : i + (n + 1) < b0.warp_imgs.length := by
      rcases hlen with h | h
      · omega
      · exact h
    obtain ⟨ms, hms⟩ := hov i (le_refl _) (by omega)
    obtain ⟨m0, m1, rfl⟩ := getOverlapMasks_two b0 (i + 1) i ms hms
    have hi0 : b0.warp_imgs[i]? = some b0.warp_imgs[i] := List.getElem?_eq_getElem (by omega)
    have hj0 : b0.warp_imgs[i + 1]? = some b0.warp_imgs[i + 1] :=
      List.getElem?_eq_getElem (by omega)
    obtain ⟨wi', hi', si⟩ := hinv i _ hi0
    obtain ⟨wj', hj', sj⟩ := hinv (i + 1) _ hj0
    obtain ⟨hst, z0, z1, z2⟩ := hstats i m0 m1 _ _ hms hi0 hj0
    have hms' : b.getOverlapMasks (i + 1) i = .ok [m0, m1] := by
      rw [getOverlapMasks_congr b0 b hfm hbr]
      exact hms
    have hstep := colorStep_eq ops b i m0 m1 wi' wj' hms' hi' hj'
    obtain ⟨b', hb', hl', hinv'⟩ := ih (i + 1)
      { b with warp_imgs :=
          (b.warp_imgs.set i (roundTrip ops wi')).set (i + 1) (corrected ops m0 m1 wi' wj') }
      hfm hbr (by simp only [List.length_set]; exact hl)
      (fun j w hjw => by
        by_cases h1 : j = i + 1
        · subst h1
          refine ⟨corrected ops m0 m1 wi' wj', ?_, ?_⟩
          · exact List.getElem?_set_eq_of_lt _ (by simp only [List.length_set]; omega)
          · have hw : w = b0.warp_imgs[i + 1] := by
              rw [hj0] at hjw
              injection hjw with hjw
              exact hjw.symm
            subst hw
            exact corrected_same ops m0 m1 _ _ wi' wj' (hrt _ _ hj0) (hlab _ _ hj0)
              (hbyte _ _ hj0) si sj hst z0 z1 z2
        · by_cases h2 : j = i
          · subst h2
            refine ⟨roundTrip ops wi', ?_, ?_⟩
            · simp only
              rw [List.getElem?_set_ne (by omega)]
              exact List.getElem?_set_eq_of_lt _ (by omega)
            · have hw : w = b0.warp_imgs[j] := by
                rw [hi0] at hjw
                injection hjw with hjw
                exact hjw.symm
              subst hw
              exact roundTrip_same ops _ wi' (hrt _ _ hi0) (hbyte _ _ hi0) si
          · obtain ⟨w', hw', sw⟩ := hinv j w hjw
            refine ⟨w', ?_, sw⟩
            simp only
            rw [List.getElem?_set_ne (fun h => h1 h.symm), List.getElem?_set_ne (fun h => h2 h.symm)]
            exact hw')
      (Or.inr (by omega))
      (fun k hk1 hk2 => hov k (by omega) (by omega))
    refine ⟨b', ?_, hl', hinv'⟩
    simp only [colorLoop, hstep]
    exact hb'

/-- The identity case of the colour correction. With equal statistics and a non-zero
standard deviation the per-channel transfer returns every 8-bit channel value unchanged; and
when, for each consecutive pair, the statistics over the overlap are identical in both frames
with non-zero standard deviations, the frames hold 8-bit values, and the conversion to 8-bit
Lab and back to BGR returns every pixel value of the frames, `correctColor` returns with
every warped image holding the values it had. -/
theorem correctColor_identity (ops : ColorOps)
    (b : Blender Image) (hne : b.warp_imgs.length ≠ 0)
    (hrt : ∀ (j : Nat) (w : Image), b.warp_imgs[j]? = some w →
      ∀ r c, ops.lab2bgr (ops.bgr2lab (w.px r c)) = w.px r c)
    (hlab : ∀ (j : Nat) (w : Image), b.warp_imgs[j]? = some w →
      ∀ r c, (ops.bgr2lab (w.px r c)).isByte = true)
    (hbyte : ∀ (j : Nat) (w : Image), b.warp_imgs[j]? = some w → w.isByte)
    (hov : ∀ k, k + 1 < b.warp_imgs.length → ∃ ms, b.getOverlapMasks (k + 1) k = .ok ms)
    (hstats : ∀ k m0 m1 wi wj, b.getOverlapMasks (k + 1) k = .ok [m0, m1] →
      b.warp_imgs[k]? = some wi → b.warp_imgs[k + 1]? = some wj →
      ops.meanStdDev (labOf ops wi) m0 = ops.meanStdDev (labOf ops wj) m1 ∧
      (ops.meanStdDev (labOf ops wj) m1).2.c0 ≠ 0 ∧
      (ops.meanStdDev (labOf ops wj) m1).2.c1 ≠ 0 ∧
      (ops.meanStdDev (labOf ops wj) m1).2.c2 ≠ 0) :
    (∀ stdev mean c : ℚ, stdev ≠ 0 → isByte c = true →
      transferChannel stdev mean stdev mean c = c) ∧
    ∃ b', correctColor ops b = .ok b' ∧ b'.warp_imgs.length = b.warp_imgs.length ∧
      ∀ (j : Nat) (w : Image), b.warp_imgs[j]? = some w →
        ∃ w', b'.warp_imgs[j]? = some w' ∧ sameValues w w' := by
  refine ⟨fun stdev mean c hs hc => transferChannel_identity stdev mean c hs hc, ?_⟩
  unfold correctColor
  rw [if_neg hne]
  exact colorLoop_same ops b hrt hlab hbyte hstats (b.warp_imgs.length - 1) 0 b rfl rfl rfl
    (fun j w hjw => ⟨w, hjw, rfl, rfl, fun _ _ => rfl⟩)
    (by omega) (fun k _ hk => hov k (by omega))

/-- C6 at a failing input: one staged 10x10 frame with a filled trim mask, inside a 10x10
canvas. The warped image keeps the depth `CV_32F` (no colour correction runs on a single
frame, whatever the colour collaborators are), so the masked copy does not reach the `CV_8U`
canvas: `final_scene` is black at the pixel `(0, 0)` although the trim mask covers it and the
warped image holds `(9, 9, 9)`. -/
theorem blendDirect_single_frame_black :
    (fullMask 10 10).px 0 0 ≠ 0 ∧ (flatImage 10 10 ⟨9, 9, 9⟩).px 0 0 = ⟨9, 9, 9⟩ ∧
    roiInside 10 10 (Rect2f.toRect ⟨0, 0, 10, 10⟩) = true ∧
    ∀ ops : ColorOps, ∃ scene, blendDirect ops 1 10 10 stagedSingle = .ok scene ∧
      scene.px 0 0 = ⟨0, 0, 0⟩ := by
  have hr : Rect2f.toRect ⟨0, 0, 10, 10⟩ = ⟨0, 0, 10, 10⟩ := by
    simp only [Rect2f.toRect]
    decide
  refine ⟨by simp [fullMask], rfl, by rw [hr]; decide, fun ops => ⟨blackScene 10 10, ?_, rfl⟩⟩
  have hc : correctColor ops stagedSingle = .ok stagedSingle := rfl
  simp only [blendDirect, hc, compositeLoop, stagedSingle, List.getElem?_cons_zero, hr]
  rfl

/-- The direct copy of frames of the depth of the canvas: the loop returns, and every pixel
of the canvas holds the value of the last frame in sequence order that covers it, or its
former value when no frame does. -/
theorem compositeLoop_last_wins (b : Blender Image) (count : Nat) :
    ∀ (lo : Nat) (scene : Image),
      (∀ i, lo ≤ i → i < lo + count → stagedFor scene b i) →
      ∃ scene', compositeLoop lo count scene b = .ok scene' ∧ scene'.rows = scene.rows ∧
        scene'.cols = scene.cols ∧ scene'.depth = scene.depth ∧
        ∀ row col, scene'.px row col = (lastCover b row col lo count).getD (scene.px row col) := by
  induction count with
  | zero =>
    intro lo scene _
    exact ⟨scene, rfl, rfl, rfl, rfl, fun _ _ => rfl⟩
  | succ n ih =>
    intro lo scene hst
    obtain ⟨w, m, br, hw, hm, hbr, hin, hmr, hmc, hwr, hwc, hd⟩ := hst lo (le_refl _) (by omega)
    have hcopy : copyToRoi scene br.toRect w m = .ok
        { scene with
          px := fun row col =>
            if br.toRect.contains row col ∧ m.px (row - br.toRect.y) (col - br.toRect.x) ≠ 0 then
              w.px (row - br.toRect.y) (col - br.toRect.x)
            else scene.px row col } := by
      unfold copyToRoi
      rw [if_neg (by rw [hin]; decide), if_neg (by simp [hmr, hmc]), if_pos ⟨hwr, hwc, hd⟩]
    obtain ⟨scene', hs', hr', hc', hd', hpx⟩ := ih (lo + 1)
      { scene with
        px := fun row col =>
          if br.toRect.contains row col ∧ m.px (row - br.toRect.y) (col - br.toRect.x) ≠ 0 then
            w.px (row - br.toRect.y) (col - br.toRect.x)
          else scene.px row col }
      (fun i h1 h2 => hst i (by omega) (by omega))
    refine ⟨scene', ?_, hr', hc', hd', fun row col => ?_⟩
    · simp only [compositeLoop, hw, hm, hbr, hcopy]
      exact hs'
    · rw [hpx row col]
      simp only [lastCover]
      cases hl : lastCover b row col (lo + 1) n with
      | some v => rfl
      | none =>
        simp only [Option.getD_none, covers, hw, hm, hbr]
        split <;> rfl

/-- The masks `getOverlapMasks` returns vanish outside the two ROIs: the scene mask is kept
inside `scRoi` only and the object mask inside `objRoi` only. -/
theorem getOverlapMasks_outside_roi {α : Type} (b : Blender α) (o s : Nat) (mo ms : Mask)
    (bo bs : Rect2f) (hmo : b.full_masks[o]? = some mo) (hms : b.full_masks[s]? = some ms)
    (hbo : b.bound_rect[o]? = some bo) (hbs : b.bound_rect[s]? = some bs) (m0 m1 : Mask)
    (h : b.getOverlapMasks o s = .ok [m0, m1]) (r c : Int) :
    ((scRoi bo bs).contains r c = false → m0.px r c = 0) ∧
    ((objRoi bo bs).contains r c = false → m1.px r c = 0) := by
  rw [getOverlapMasks_eq b o s mo ms bo bs hmo hms hbo hbs] at h
  split at h
  · cases h
  · split at h
    · cases h
    · injection h with h
      injection h with h0 h
      injection h with h1 _
      subst h0
      subst h1
      exact ⟨fun hc => by simp [andInto, hc], fun hc => by simp [andInto, hc]⟩

/-- A call of `setHReference` keeps the number of perspective bound points. -/
theorem setHReference_bound_points_length (tw th : ℚ) (f : Frame) (T : Mat3) (ref : Ref) :
    ((f.setHReference tw th T ref).bound_points Ref.PERSPECTIVE).length
      = (f.bound_points Ref.PERSPECTIVE).length := by
  cases ref <;> simp [Frame.setHReference, Frame.updateBoundRect, perspectiveTransform]

/-- Every reachable frame has exactly five perspective bound points. -/
theorem reachable_bound_points_length (tw th : ℚ) (f : Frame) (h : Frame.Reachable tw th f) :
    (f.bound_points Ref.PERSPECTIVE).length = 5 := by
  induction h with
  | construct w ht color gray => rfl
  | setHReference f T ref _ ih => rw [setHReference_bound_points_length, ih]
  | matched f prev next _ ih => exact ih
  | linked f neighbors _ ih => exact ih

/-- Five in-place assignments overwrite a vector of five points entirely. -/
theorem set_five (l : List Point2f) (h : l.length = 5) (a b c d e : Point2f) :
    ((((l.set 0 a).set 1 b).set 2 c).set 3 d).set 4 e = [a, b, c, d, e] := by
  match l, h with
  | [_, _, _, _, _], _ => rfl

/-- C11: for every frame state reachable from construction by `setHReference` calls (and
by writes of matched points and neighbours), `resetFrame` yields `H` = identity, the
perspective bound points `(0, 0)`, `(cols, 0)`, `(cols, rows)`, `(0, rows)` and the centre
`(cols / 2, rows / 2)` (integer division), `bound_rect = (0, 0, cols, rows)`, empty
`grid_points[NEXT]` and `neighbors`, where `cols x rows` is the size of the colour image; the
pixel data and the image size are unchanged. -/
theorem resetFrame_spec (tw th : ℚ) (f : Frame) (h : Frame.Reachable tw th f) :
    f.resetFrame.H = Mat3.eye ∧
    f.resetFrame.bound_points Ref.PERSPECTIVE
      = [⟨0, 0⟩, ⟨f.cols, 0⟩, ⟨f.cols, f.rows⟩, ⟨0, f.rows⟩,
         ⟨((Int.tdiv f.cols 2 : Int) : ℚ), ((Int.tdiv f.rows 2 : Int) : ℚ)⟩] ∧
    f.resetFrame.bound_rect = ⟨0, 0, f.cols, f.rows⟩ ∧
    f.resetFrame.grid_next = [] ∧
    f.resetFrame.neighbors = [] ∧
    f.resetFrame.color = f.color ∧
    f.resetFrame.gray = f.gray ∧
    f.resetFrame.cols = f.cols ∧
    f.resetFrame.rows = f.rows := by
  refine ⟨rfl, ?_, rfl, rfl, rfl, rfl, rfl, rfl, rfl⟩
  simp only [Frame.resetFrame, if_true]
  exact set_five _ (reachable_bound_points_length tw th f h) _ _ _ _ _

/-- C11 at a 640x360 frame that carries four matched points and two neighbours and was
moved by a translation: the reset restores the tile and clears both members. -/
theorem resetFrame_spec_witness :
    Frame.Reachable 640 360 movedFrame ∧
    movedFrame.bound_rect ≠ ⟨0, 0, 640, 360⟩ ∧
    movedFrame.grid_next.length = 4 ∧
    movedFrame.neighbors = [1, 2] ∧
    movedFrame.resetFrame.H = Mat3.eye ∧
    movedFrame.resetFrame.bound_points Ref.PERSPECTIVE
      = [⟨0, 0⟩, ⟨movedFrame.cols, 0⟩, ⟨movedFrame.cols, movedFrame.rows⟩, ⟨0, movedFrame.rows⟩,
         ⟨((Int.tdiv movedFrame.cols 2 : Int) : ℚ), ((Int.tdiv movedFrame.rows 2 : Int) : ℚ)⟩] ∧
    movedFrame.resetFrame.bound_rect = ⟨0, 0, movedFrame.cols, movedFrame.rows⟩ ∧
    movedFrame.resetFrame.grid_next = [] ∧
    movedFrame.resetFrame.neighbors = [] ∧
    movedFrame.resetFrame.color = movedFrame.color ∧
    movedFrame.resetFrame.gray = movedFrame.gray ∧
    movedFrame.resetFrame.cols = movedFrame.cols ∧
    movedFrame.resetFrame.rows = movedFrame.rows :=
  ⟨Frame.Reachable.setHReference _ _ _ (Frame.Reachable.linked _ _
      (Frame.Reachable.matched _ _ _ (Frame.Reachable.construct 640 360 _ _))),
   by
    have e1 : Int.tdiv 640 2 = 320 := by decide
    have e2 : Int.tdiv 360 2 = 180 := by decide
    simp [movedFrame, Frame.construct, Frame.setHReference, Frame.updateBoundRect, Frame.new,
      perspectiveTransform, transformPoint_translation, Extrema.step, e1, e2]
    norm_num,
   by simp [movedFrame, Frame.setHReference, Frame.updateBoundRect, perspectiveTransform,
      tileCorners],
   rfl,
   resetFrame_spec 640 360 movedFrame
     (Frame.Reachable.setHReference _ _ _ (Frame.Reachable.linked _ _
       (Frame.Reachable.matched _ _ _ (Frame.Reachable.construct 640 360 _ _))))⟩

/-- Swapping the two frames swaps the two masks `getOverlapMasks` returns: whatever the
bounding rects are, `getOverlapMasks(s, o)` returns when `getOverlapMasks(o, s)` does, with
the same mask for each frame. -/
theorem getOverlapMasks_swap {α : Type} (b : Blender α) (o s : Nat) (mo ms : Mask)
    (bo bs : Rect2f) (hmo : b.full_masks[o]? = some mo) (hms : b.full_masks[s]? = some ms)
    (hbo : b.bound_rect[o]? = some bo) (hbs : b.bound_rect[s]? = some bs) (m0 m1 : Mask)
    (h : b.getOverlapMasks o s = .ok [m0, m1]) :
    ∃ m0' m1', b.getOverlapMasks s o = .ok [m0', m1'] ∧
      m0'.rows = m1.rows ∧ m0'.cols = m1.cols ∧ m1'.rows = m0.rows ∧ m1'.cols = m0.cols ∧
      ∀ r c, m0'.px r c = m1.px r c ∧ m1'.px r c = m0.px r c := by
  rw [getOverlapMasks_eq b o s mo ms bo bs hmo hms hbo hbs] at h
  rw [getOverlapMasks_eq b s o ms mo bs bo hms hmo hbs hbo,
    (objRoi_eq_scRoi_swap bs bo).1, (objRoi_eq_scRoi_swap bs bo).2]
  split at h
  · cases h
  · rename_i h1
    split at h
    · cases h
    · rename_i h2
      injection h with h
      injection h with e0 h
      injection h with e1 _
      subst e0
      subst e1
      rw [if_neg h2, if_neg h1]
      refine ⟨_, _, rfl, rfl, rfl, rfl, rfl, fun r c => ⟨?_, ?_⟩⟩
      · simp only [andInto]
        split
        · exact Nat.land_comm _ _
        · rfl
      · simp only [andInto]
        split
        · exact Nat.land_comm _ _
        · rfl

/-- For integer bounding rects whose masks have the size of their rect and whose
intersection is not empty, `getOverlapMasks` returns. -/
theorem getOverlapMasks_ofInt_ok {α : Type} (b : Blender α) (o s : Nat) (mo ms : Mask)
    (ox oy ow oh sx sy sw sh : Int)
    (hmo : b.full_masks[o]? = some mo) (hms : b.full_masks[s]? = some ms)
    (hbo : b.bound_rect[o]? = some (Rect2f.ofInt ox oy ow oh))
    (hbs : b.bound_rect[s]? = some (Rect2f.ofInt sx sy sw sh))
    (hor : mo.rows = oh) (hoc : mo.cols = ow) (hsr : ms.rows = sh) (hsc : ms.cols = sw)
    (hw : max sx ox < min (sx + sw) (ox + ow)) (hh : max sy oy < min (sy + sh) (oy + oh)) :
    ∃ m0 m1, b.getOverlapMasks o s = .ok [m0, m1] := by
  rw [getOverlapMasks_eq b o s mo ms _ _ hmo hms hbo hbs, objRoi_ofInt, scRoi_ofInt]
  have h1 : roiOK mo ⟨max (sx - ox) 0, max (sy - oy) 0, min (sx + sw) (ox + ow) - max sx ox,
      min (sy + sh) (oy + oh) - max sy oy⟩ = true := by
    simp only [roiOK, Bool.and_eq_true, decide_eq_true_eq, hor, hoc]
    omega
  have h2 : roiOK ms ⟨max (ox - sx) 0, max (oy - sy) 0, min (sx + sw) (ox + ow) - max sx ox,
      min (sy + sh) (oy + oh) - max sy oy⟩ = true := by
    simp only [roiOK, Bool.and_eq_true, decide_eq_true_eq, hsr, hsc]
    omega
  rw [h1, h2]
  exact ⟨_, _, rfl⟩

/-- For integer bounding rects, the two masks `getOverlapMasks` returns, each read at the
local position of the same global pixel, hold the same value: the AND of the two full masks
inside the intersection of the rects and zero outside. -/
theorem getOverlapMasks_ofInt_px {α : Type} (b : Blender α) (o s : Nat) (mo ms : Mask)
    (ox oy ow oh sx sy sw sh : Int)
    (hmo : b.full_masks[o]? = some mo) (hms : b.full_masks[s]? = some ms)
    (hbo : b.bound_rect[o]? = some (Rect2f.ofInt ox oy ow oh))
    (hbs : b.bound_rect[s]? = some (Rect2f.ofInt sx sy sw sh)) (m0 m1 : Mask)
    (h : b.getOverlapMasks o s = .ok [m0, m1]) (gx gy : Int) :
    m1.px (gy - oy) (gx - ox) = m0.px (gy - sy) (gx - sx) ∧
    m1.px (gy - oy) (gx - ox) =
      if inIntersection (Rect2f.ofInt ox oy ow oh) (Rect2f.ofInt sx sy sw sh) gx gy = true then
        Nat.land (ms.px (gy - sy) (gx - sx)) (mo.px (gy - oy) (gx - ox))
      else 0 := by
  rw [getOverlapMasks_eq b o s mo ms _ _ hmo hms hbo hbs, objRoi_ofInt, scRoi_ofInt] at h
  split at h
  · cases h
  · split at h
    · cases h
    · injection h with h
      injection h with e0 h
      injection h with e1 _
      subst e0
      subst e1
      have hin : inIntersection (Rect2f.ofInt ox oy ow oh) (Rect2f.ofInt sx sy sw sh) gx gy
          = decide (max ox sx ≤ gx ∧ gx < min (ox + ow) (sx + sw) ∧ max oy sy ≤ gy ∧
              gy < min (oy + oh) (sy + sh)) := by
        simp only [inIntersection, Rect2f.ofInt, ← Int.cast_add, ← Int.cast_max, ← Int.cast_min,
          Int.cast_le, Int.cast_lt]
        rw [Bool.eq_iff_iff]
        simp only [Bool.and_eq_true, decide_eq_true_eq]
        tauto
      rw [hin]
      simp only [andInto, Rect.contains, Bool.and_eq_true, decide_eq_true_eq]
      by_cases hc : max ox sx ≤ gx ∧ gx < min (ox + ow) (sx + sw) ∧ max oy sy ≤ gy ∧
          gy < min (oy + oh) (sy + sh)
      · have e1 : gy - oy - max (sy - oy) 0 + max (oy - sy) 0 = gy - sy := by omega
        have e2 : gx - ox - max (sx - ox) 0 + max (ox - sx) 0 = gx - sx := by omega
        have e3 : gy - oy - max (sy - oy) 0 + max (sy - oy) 0 = gy - oy := by omega
        have e4 : gx - ox - max (sx - ox) 0 + max (sx - ox) 0 = gx - ox := by omega
        have e5 : gy - sy - max (oy - sy) 0 + max (oy - sy) 0 = gy - sy := by omega
        have e6 : gx - sx - max (ox - sx) 0 + max (ox - sx) 0 = gx - sx := by omega
        have e7 : gy - sy - max (oy - sy) 0 + max (sy - oy) 0 = gy - oy := by omega
        have e8 : gx - sx - max (ox - sx) 0 + max (sx - ox) 0 = gx - ox := by omega
        rw [if_pos (by omega), if_pos (by omega), if_pos hc, e1, e2, e3, e4, e5, e6, e7, e8]
        exact ⟨rfl, rfl⟩
      · rw [if_neg (by omega), if_neg (by omega), if_neg hc]
        exact ⟨rfl, rfl⟩

/-- The intersection width and height of integer bounding rects. -/
theorem interWidth_ofInt (ox oy ow oh sx sy sw sh : Int) :
    interWidth (Rect2f.ofInt ox oy ow oh) (Rect2f.ofInt sx sy sw sh)
      = ((min (sx + sw) (ox + ow) - max sx ox : Int) : ℚ) ∧
    interHeight (Rect2f.ofInt ox oy ow oh) (Rect2f.ofInt sx sy sw sh)
      = ((min (sy + sh) (oy + oh) - max sy oy : Int) : ℚ) := by
  simp only [interWidth, interHeight, Rect2f.ofInt]
  push_cast
  exact ⟨rfl, rfl⟩

/-- C4 (amended): for every pair of staged frames, `getOverlapMasks(a, b)` and
`getOverlapMasks(b, a)` return the same mask for each frame, so they cover the same global
pixels; and when the two bounding rects have integer coordinates, the region kept in the
object-local mask and the region kept in the scene-local mask, each translated by the origin
of its own bounding rect, are the same set of global pixels, namely the axis-aligned
intersection of the two rects: the call returns when the rects overlap and the masks have the
size of their rect, and both returned masks hold, at every global pixel, the AND of the two
full masks inside the intersection and zero outside. -/
theorem getOverlapMasks_regions {α : Type} (b : Blender α) (o s : Nat) (mo ms : Mask)
    (bo bs : Rect2f) (hmo : b.full_masks[o]? = some mo) (hms : b.full_masks[s]? = some ms)
    (hbo : b.bound_rect[o]? = some bo) (hbs : b.bound_rect[s]? = some bs) :
    (∀ m0 m1, b.getOverlapMasks o s = .ok [m0, m1] →
      ∃ m0' m1', b.getOverlapMasks s o = .ok [m0', m1'] ∧
        m0'.rows = m1.rows ∧ m0'.cols = m1.cols ∧ m1'.rows = m0.rows ∧ m1'.cols = m0.cols ∧
        ∀ r c, m0'.px r c = m1.px r c ∧ m1'.px r c = m0.px r c) ∧
    (∀ ox oy ow oh sx sy sw sh : Int,
      bo = Rect2f.ofInt ox oy ow oh → bs = Rect2f.ofInt sx sy sw sh →
      (mo.rows = oh → mo.cols = ow → ms.rows = sh → ms.cols = sw →
        0 < interWidth bo bs → 0 < interHeight bo bs →
        ∃ m0 m1, b.getOverlapMasks o s = .ok [m0, m1]) ∧
      (∀ gx gy : ℚ,
        inGlobal bo (objRoi bo bs) gx gy = inGlobal bs (scRoi bo bs) gx gy ∧
        inGlobal bo (objRoi bo bs) gx gy
          = (decide (gx.den = 1) && decide (gy.den = 1) && inIntersection bo bs gx gy)) ∧
      (∀ m0 m1, b.getOverlapMasks o s = .ok [m0, m1] → ∀ gx gy : Int,
        m1.px (gy - oy) (gx - ox) = m0.px (gy - sy) (gx - sx) ∧
        m1.px (gy - oy) (gx - ox) =
          if inIntersection bo bs gx gy = true then
            Nat.land (ms.px (gy - sy) (gx - sx)) (mo.px (gy - oy) (gx - ox))
          else 0)) := by
  refine ⟨fun m0 m1 h => getOverlapMasks_swap b o s mo ms bo bs hmo hms hbo hbs m0 m1 h, ?_⟩
  intro ox oy ow oh sx sy sw sh ebo ebs
  subst ebo
  subst ebs
  refine ⟨?_, ?_, ?_⟩
  · intro hor hoc hsr hsc hw hh
    rw [(interWidth_ofInt ox oy ow oh sx sy sw sh).1] at hw
    rw [(interWidth_ofInt ox oy ow oh sx sy sw sh).2] at hh
    have hw' : 0 < min (sx + sw) (ox + ow) - max sx ox := by exact_mod_cast hw
    have hh' : 0 < min (sy + sh) (oy + oh) - max sy oy := by exact_mod_cast hh
    exact getOverlapMasks_ofInt_ok b o s mo ms ox oy ow oh sx sy sw sh hmo hms hbo hbs
      hor hoc hsr hsc (by omega) (by omega)
  · intro gx gy
    exact ⟨(overlap_regions_integer ox oy ow oh sx sy sw sh gx gy).1,
      (overlap_regions_integer ox oy ow oh sx sy sw sh gx gy).2.1⟩
  · intro m0 m1 h gx gy
    exact getOverlapMasks_ofInt_px b o s mo ms ox oy ow oh sx sy sw sh hmo hms hbo hbs m0 m1 h
      gx gy

/-- The amended C4 at two staged 10x10 frames overlapping on five columns: both orders of
the call return. -/
theorem getOverlapMasks_regions_witness :
    (∃ m0 m1, (stagedPair ⟨0, 0, 10, 10⟩ ⟨5, 0, 10, 10⟩).getOverlapMasks 0 1 = .ok [m0, m1]) ∧
    (∀ m0 m1, (stagedPair ⟨0, 0, 10, 10⟩ ⟨5, 0, 10, 10⟩).getOverlapMasks 0 1 = .ok [m0, m1] →
      ∃ m0' m1', (stagedPair ⟨0, 0, 10, 10⟩ ⟨5, 0, 10, 10⟩).getOverlapMasks 1 0
          = .ok [m0', m1'] ∧
        m0'.rows = m1.rows ∧ m0'.cols = m1.cols ∧ m1'.rows = m0.rows ∧ m1'.cols = m0.cols ∧
        ∀ r c, m0'.px r c = m1.px r c ∧ m1'.px r c = m0.px r c) :=
  ⟨((getOverlapMasks_regions (stagedPair ⟨0, 0, 10, 10⟩ ⟨5, 0, 10, 10⟩) 0 1
      (fullMask (truncInt 10) (truncInt 10)) (fullMask (truncInt 10) (truncInt 10))
      ⟨0, 0, 10, 10⟩ ⟨5, 0, 10, 10⟩ rfl rfl rfl rfl).2 0 0 10 10 5 0 10 10
      (by simp [Rect2f.ofInt]) (by simp [Rect2f.ofInt])).1
      (by decide) (by decide) (by decide) (by decide)
      (by norm_num [interWidth]) (by norm_num [interHeight]),
   (getOverlapMasks_regions (stagedPair ⟨0, 0, 10, 10⟩ ⟨5, 0, 10, 10⟩) 0 1
      (fullMask (truncInt 10) (truncInt 10)) (fullMask (truncInt 10) (truncInt 10))
      ⟨0, 0, 10, 10⟩ ⟨5, 0, 10, 10⟩ rfl rfl rfl rfl).1⟩

end m2d
